import Mathlib

/-!
Verification development for the query-filter compiler of `sqlmodel-filters`.

The Lean definitions below are a shallow embedding of the Python sources
(`sqlmodel_filters/builder.py`, `components.py`, `utils.py`, `exceptions.py`).
Pure functions become Lean functions; instance state (the accumulated
expression list and the analyzed-position set) becomes explicit state passing;
Python exceptions become an `Except Err` result.  External collaborators that
the sources call (the luqum AST and visitor, pydantic validation, the
SQLAlchemy expression constructors) are modelled at their documented
interfaces; each such definition carries a comment saying what it models.
-/

set_option maxHeartbeats 1000000

namespace SqlmodelFilters

/-- Failure conditions.  `illegalField` and `illegalFilter` model the
library's own `IllegalFieldError` / `IllegalFilterError` (exceptions.py); the
remaining constructors model Python runtime errors that the sources can let
escape: `KeyError` from an unguarded dict subscript, `AttributeError` from
`getattr`, `TypeError` from calling a function with the wrong arity,
pydantic's `ValidationError`, and `IndexError` from indexing an empty
string. -/
inductive Err where
  | illegalField (msg : String)
  | illegalFilter (msg : String)
  | keyError (key : String)
  | attributeError (msg : String)
  | typeError (msg : String)
  | validationError (msg : String)
  | indexError (msg : String)
deriving Repr, DecidableEq

/-- Declared field types of a schema model (spec §4.2 lists integer, string,
boolean and optional-wrapped variants; this development models that core). -/
inductive FieldType where
  | tInt
  | tStr
  | tBool
  | tOpt (t : FieldType)
deriving Repr, DecidableEq

/-- A coerced Python value: the result of validating a raw token. -/
inductive Value where
  | vInt (n : Int)
  | vStr (s : String)
  | vBool (b : Bool)
  | vNone
deriving Repr, DecidableEq

/-- Decimal digit accumulator used to model `int(...)` parsing. -/
def digitsToNatAux : List Char → Nat → Option Nat
  | [], acc => some acc
  | c :: cs, acc =>
    if c.isDigit then digitsToNatAux cs (acc * 10 + (c.toNat - '0'.toNat))
    else none

/-- Modelled from the spec (§4.2 Value Coercer): parsing of a decimal integer
literal, with an optional leading minus sign; an empty digit string fails. -/
def pyParseInt (s : String) : Option Int :=
  match s.data with
  | [] => none
  | '-' :: cs =>
    if cs.isEmpty then none
    else (digitsToNatAux cs 0).map (fun n => -(n : Int))
  | cs =>
    if cs.isEmpty then none
    else (digitsToNatAux cs 0).map (fun n => (n : Int))

/-- Python `str.lower` restricted to the ASCII case mapping. -/
def pyLower (s : String) : String := String.mk (s.data.map Char.toLower)

/-- Modelled from the spec (§4.2 Value Coercer): pydantic validation of a raw
string token against the declared field type.  Integers parse decimal
literals, strings pass through unchanged, booleans accept `true`/`false`
case-insensitively, optional types validate the token against the wrapped
type; malformed input fails (the spec's `CoercionFailed`, surfacing as
pydantic's validation error). -/
def castValue : FieldType → String → Except Err Value
  | .tInt, s =>
    match pyParseInt s with
    | some n => .ok (.vInt n)
    | none => .error (.validationError s)
  | .tStr, s => .ok (.vStr s)
  | .tBool, s =>
    if pyLower s = "true" then .ok (.vBool true)
    else if pyLower s = "false" then .ok (.vBool false)
    else .error (.validationError s)
  | .tOpt t, s => castValue t s

/-- Python `str.replace` for a single-character pattern and a
single-character replacement: every occurrence is replaced. -/
def pyReplaceChar (p r : Char) : List Char → List Char
  | [] => []
  | c :: cs => (if c = p then r else c) :: pyReplaceChar p r cs

/-- Models `components.replace_wildcards` applied to `LikeWord.WILDCARD_MAPPING`:
the mapping `{"?": "_", "*": "%"}` is iterated in insertion order, so the
string is first passed through `replace("?", "_")` and then through
`replace("*", "%")`. -/
def replace_wildcards (s : String) : String :=
  String.mk (pyReplaceChar '*' '%' (pyReplaceChar '?' '_' s.data))

/-- Models `LikeWord.has_wildcard`: Python `any(w in value for w in wildcards)`;
membership of a one-character string is membership of the character. -/
def LikeWord.has_wildcard (value : String) : Bool :=
  value.data.contains '?' || value.data.contains '*'

/-- Models `LikeWord.__str__`: translate the wildcards when at least one is present,
otherwise wrap the literal in a leading and a trailing `%`. -/
def LikeWord.toPattern (value : String) : String :=
  if LikeWord.has_wildcard value then replace_wildcards value
  else "%" ++ value ++ "%"

/-- The apostrophe character, one of the two quote characters `dequote`
strips. -/
def singleQuote : Char := Char.ofNat 39

/-- Models `utils.is_surrounded`: Python `s[0] == s[-1] and s.startswith(prefix)`;
indexing an empty string raises `IndexError`.  The prefixes used by the
sources are single characters, so `startswith` is membership of the first
character. -/
def is_surrounded (s : String) (pre : List Char) : Except Err Bool :=
  match s.data with
  | [] => .error (.indexError "string index out of range")
  | c :: cs => .ok (((c :: cs).getLastD c == c) && pre.contains c)

/-- Models `utils.dequote`: strip one matching pair of surrounding quotes. -/
def dequote (s : String) : Except Err String :=
  match is_surrounded s ['"', singleQuote] with
  | .error e => .error e
  | .ok true => .ok (String.mk s.data.tail.dropLast)
  | .ok false => .ok s

/-- Models `utils.deslash`: strip one pair of surrounding slashes. -/
def deslash (s : String) : Except Err String :=
  match is_surrounded s ['/'] with
  | .error e => .error e
  | .ok true => .ok (String.mk s.data.tail.dropLast)
  | .ok false => .ok s

/-- A SQLModel model class: its name, its declared fields (`model_fields`,
an insertion-ordered mapping from field name to declared type) and the names
of its declared relationships (`__sqlmodel_relationships__`). -/
structure Model where
  name : String
  fields : List (String × FieldType)
  sqlmodelRelationships : List String
deriving Repr, DecidableEq

/-- A value of the relationship map: either a model class directly or the
`Relationship` TypedDict of components.py (keys `join` and `model`; the
builder additionally reads optional `onclause`, `isouter` and `full` keys
with `.get`). -/
inductive Relationship where
  | plain (model : Model)
  | dict (join : String) (model : Model) (onclause : Option String)
      (isouter full : Option Bool)
deriving Repr, DecidableEq

/-- Models `components.relationship_to_model`. -/
def relationship_to_model : Relationship → Model
  | .plain m => m
  | .dict _ m _ _ _ => m

/-- Whether `getattr(model, name)` succeeds.  On a SQLModel class the
model-relevant attributes are the instrumented fields and the declared
relationships; other attribute names raise `AttributeError`.  (Inherited
method names of the Python class machinery are not modelled.) -/
def Model.hasAttr (m : Model) (name : String) : Bool :=
  (m.fields.lookup name).isSome || m.sqlmodelRelationships.contains name

/-- An instrumented attribute reference: the owning model's name and the
attribute name.  This is what a compiled predicate mentions. -/
structure FieldRef where
  model : String
  name : String
deriving Repr, DecidableEq

/-- Models `components.ModelField`. -/
structure ModelField where
  model : Model
  name : String
  relationships : List (String × Relationship)

/-- Accumulator for `pySplitDot`. -/
def splitDotAux : List Char → List Char → List String
  | [], acc => [String.mk acc.reverse]
  | c :: cs, acc =>
    if c = '.' then String.mk acc.reverse :: splitDotAux cs []
    else splitDotAux cs (c :: acc)

/-- Python `name.split(".")`. -/
def pySplitDot (s : String) : List String := splitDotAux s.data []

/-- Models `ModelField.chains`. -/
def ModelField.chains (mf : ModelField) : List String := pySplitDot mf.name

/-- Models `ModelField.is_chained`. -/
def ModelField.is_chained (mf : ModelField) : Bool := mf.chains.length > 1

/-- Models `ModelField.last_name`: `chains[-1]` (chains is never empty). -/
def ModelField.last_name (mf : ModelField) : String := mf.chains.getLastD ""

/-- The `for chain in self.chains[:-2]` loop of `ModelField.chained_model`:
each segment must be declared on the current model
(`model.__sqlmodel_relationships__`), failing with `IllegalFieldError`
otherwise; the following unguarded dict access `self.relationships[chain]`
raises `KeyError` when the map lacks the key. -/
def chainedModelLoop (rels : List (String × Relationship)) :
    Model → List String → Except Err Model
  | model, [] => .ok model
  | model, chain :: rest =>
    if model.sqlmodelRelationships.contains chain then
      match rels.lookup chain with
      | some r => chainedModelLoop rels (relationship_to_model r) rest
      | none => .error (.keyError chain)
    else .error (.illegalField (model.name ++ " does not have field:" ++ chain))

/-- Models `ModelField.chained_model`: after the loop over `chains[:-2]`, the
second-to-last segment is looked up in the relationship map, with the
`KeyError` converted to `IllegalFieldError`. -/
def ModelField.chained_model (mf : ModelField) : Except Err Model :=
  if mf.is_chained then
    match chainedModelLoop mf.relationships mf.model mf.chains.dropLast.dropLast with
    | .error e => .error e
    | .ok model =>
      let relationship_name := mf.chains.dropLast.getLastD ""
      match mf.relationships.lookup relationship_name with
      | some r => .ok (relationship_to_model r)
      | none =>
        .error (.illegalField (model.name ++ " does not have field:" ++ relationship_name))
  else .ok mf.model

/-- Models `ModelField.field`: `getattr(self.chained_model, self.last_name)` with
`AttributeError` converted to `IllegalFieldError`. -/
def ModelField.field (mf : ModelField) : Except Err FieldRef :=
  match mf.chained_model with
  | .error e => .error e
  | .ok m =>
    if m.hasAttr mf.last_name then .ok ⟨m.name, mf.last_name⟩
    else .error (.illegalField (m.name ++ " does not have field:" ++ mf.last_name))

/-- Models `ModelField.field_info`: `self.chained_model.model_fields[self.last_name]`;
the dict subscript raises `KeyError` when the name is not a field. -/
def ModelField.field_info (mf : ModelField) : Except Err FieldType :=
  match mf.chained_model with
  | .error e => .error e
  | .ok m =>
    match m.fields.lookup mf.last_name with
    | some ty => .ok ty
    | none => .error (.keyError mf.last_name)

/-- Models `ModelField.cast`: validate the raw token against the field's declared
type (`TypeAdapter(...).validate_python`). -/
def ModelField.cast (mf : ModelField) (obj : String) : Except Err Value :=
  match mf.field_info with
  | .error e => .error e
  | .ok ty => castValue ty obj

/-- The luqum AST (tree.py of luqum, the external parser): words, phrases and
regexes are `Term`s carrying a raw value; `searchField` is a field-qualified
sub-tree; `range` carries its two bound terms and the two inclusivity flags;
`fromItem`/`toItem` are the open-ended bounds; `group` wraps one sub-tree;
the three operations carry their operand list; `notOp` has one child.  Every
node carries the source position luqum assigns (`pos`, absent when unset). -/
inductive Item where
  | word (value : String) (pos : Option Int)
  | phrase (value : String) (pos : Option Int)
  | regex (value : String) (pos : Option Int)
  | searchField (name : String) (expr : Item) (pos : Option Int)
  | range (low high : Item) (includeLow includeHigh : Bool) (pos : Option Int)
  | fromItem (child : Item) (inc : Bool) (pos : Option Int)
  | toItem (child : Item) (inc : Bool) (pos : Option Int)
  | group (expr : Item) (pos : Option Int)
  | andOp (children : List Item) (pos : Option Int)
  | orOp (children : List Item) (pos : Option Int)
  | unknownOp (children : List Item) (pos : Option Int)
  | notOp (child : Item) (pos : Option Int)

/-- The `pos` attribute of a node. -/
def Item.pos : Item → Option Int
  | .word _ p => p
  | .phrase _ p => p
  | .regex _ p => p
  | .searchField _ _ p => p
  | .range _ _ _ _ p => p
  | .fromItem _ _ p => p
  | .toItem _ _ p => p
  | .group _ p => p
  | .andOp _ p => p
  | .orOp _ p => p
  | .unknownOp _ p => p
  | .notOp _ p => p

/-- The `children` property of a luqum node: terms have none, `searchField`,
`group`, `fromItem`, `toItem` and `notOp` expose their single sub-tree,
`range` exposes `[low, high]`, operations expose their operand list. -/
def Item.childrenList : Item → List Item
  | .word _ _ => []
  | .phrase _ _ => []
  | .regex _ _ => []
  | .searchField _ c _ => [c]
  | .range lo hi _ _ _ => [lo, hi]
  | .fromItem c _ _ => [c]
  | .toItem c _ _ => [c]
  | .group c _ => [c]
  | .andOp cs _ => cs
  | .orOp cs _ => cs
  | .unknownOp cs _ => cs
  | .notOp c _ => [c]

/-- The `value` attribute of a term node; other nodes raise
`AttributeError`. -/
def Item.termValue : Item → Except Err String
  | .word v _ => .ok v
  | .phrase v _ => .ok v
  | .regex v _ => .ok v
  | _ => .error (.attributeError "value")

/-- A compiled predicate: the SQLAlchemy column expressions the builder
constructs (`isnot(None)`, `like`, comparisons, `regexp_match`, and the
`and_`/`or_`/`not_` combinators).  The core never inspects these beyond
construction, matching the spec's opaque `Predicate`. -/
inductive Expr where
  | isNotNull (f : FieldRef)
  | like (f : FieldRef) (pattern : String)
  | eq (f : FieldRef) (v : Value)
  | le (f : FieldRef) (v : Value)
  | lt (f : FieldRef) (v : Value)
  | ge (f : FieldRef) (v : Value)
  | gt (f : FieldRef) (v : Value)
  | regexpMatch (f : FieldRef) (pattern : String)
  | and (es : List Expr)
  | or (es : List Expr)
  | not (e : Expr)

/-- The attribute reference an atomic predicate mentions (composite
predicates return none). -/
def Expr.fieldOf : Expr → Option FieldRef
  | .isNotNull f => some f
  | .like f _ => some f
  | .eq f _ => some f
  | .le f _ => some f
  | .lt f _ => some f
  | .ge f _ => some f
  | .gt f _ => some f
  | .regexpMatch f _ => some f
  | .and _ => none
  | .or _ => none
  | .not _ => none

/-- Models `components.SearchFieldNode`: a leaf wrapper holding the node below a
field qualifier together with the resolved `ModelField`. -/
structure SearchFieldNode where
  node : Item
  model_field : ModelField

/-- Models `SearchFieldNode._phrase_expression`: `self.field == cast(dequote(value))`
(the attribute access is evaluated first, then the argument). -/
def SearchFieldNode.phrase_expression (sfn : SearchFieldNode) (value : String) :
    Except Err (List Expr) :=
  match sfn.model_field.field with
  | .error e => .error e
  | .ok f =>
    match dequote value with
    | .error e => .error e
    | .ok dq =>
      match sfn.model_field.cast dq with
      | .error e => .error e
      | .ok v => .ok [.eq f v]

/-- Models `SearchFieldNode._word_expression`: `*` becomes `isnot(None)`; otherwise
the value is coerced first and, by `isinstance(casted, str)`, either a LIKE
pattern or an equality is produced. -/
def SearchFieldNode.word_expression (sfn : SearchFieldNode) (value : String) :
    Except Err (List Expr) :=
  if value = "*" then
    match sfn.model_field.field with
    | .error e => .error e
    | .ok f => .ok [.isNotNull f]
  else
    match sfn.model_field.cast value with
    | .error e => .error e
    | .ok casted =>
      match sfn.model_field.field with
      | .error e => .error e
      | .ok f =>
        match casted with
        | .vStr s => .ok [.like f (LikeWord.toPattern s)]
        | v => .ok [.eq f v]

/-- Models `SearchFieldNode._range_expressions`: the upper bound is appended first
(`<=` when the high bracket is inclusive, else `<`), then the lower bound
(`>=` when the low bracket is inclusive, else `>`), and the two are joined
with `and_`. -/
def SearchFieldNode.range_expressions (sfn : SearchFieldNode)
    (low high : Item) (includeLow includeHigh : Bool) : Except Err (List Expr) :=
  match sfn.model_field.field with
  | .error e => .error e
  | .ok f =>
    match high.termValue with
    | .error e => .error e
    | .ok hs =>
      match sfn.model_field.cast hs with
      | .error e => .error e
      | .ok hv =>
        let hiExpr := if includeHigh then Expr.le f hv else Expr.lt f hv
        match low.termValue with
        | .error e => .error e
        | .ok ls =>
          match sfn.model_field.cast ls with
          | .error e => .error e
          | .ok lv =>
            let loExpr := if includeLow then Expr.ge f lv else Expr.gt f lv
            .ok [.and [hiExpr, loExpr]]

/-- Models `SearchFieldNode._from_expression`: `>=` when inclusive, else `>`. -/
def SearchFieldNode.from_expression (sfn : SearchFieldNode) (child : Item)
    (inc : Bool) : Except Err (List Expr) :=
  match sfn.model_field.field with
  | .error e => .error e
  | .ok f =>
    match child.termValue with
    | .error e => .error e
    | .ok s =>
      match sfn.model_field.cast s with
      | .error e => .error e
      | .ok v => .ok [if inc then Expr.ge f v else Expr.gt f v]

/-- Models `SearchFieldNode._to_expression`: `<=` when inclusive, else `<`. -/
def SearchFieldNode.to_expression (sfn : SearchFieldNode) (child : Item)
    (inc : Bool) : Except Err (List Expr) :=
  match sfn.model_field.field with
  | .error e => .error e
  | .ok f =>
    match child.termValue with
    | .error e => .error e
    | .ok s =>
      match sfn.model_field.cast s with
      | .error e => .error e
      | .ok v => .ok [if inc then Expr.le f v else Expr.lt f v]

/-- Models `SearchFieldNode._regex_expression`: strip the slash delimiters and build
a `regexp_match` predicate. -/
def SearchFieldNode.regex_expression (sfn : SearchFieldNode) (value : String) :
    Except Err (List Expr) :=
  match sfn.model_field.field with
  | .error e => .error e
  | .ok f =>
    match deslash value with
    | .error e => .error e
    | .ok ds => .ok [.regexpMatch f ds]

/-- Models `SearchFieldNode.get_expressions`: dispatch on the node kind; any other
kind raises `IllegalFilterError`. -/
def SearchFieldNode.get_expressions (sfn : SearchFieldNode) : Except Err (List Expr) :=
  match sfn.node with
  | .phrase v _ => sfn.phrase_expression v
  | .word v _ => sfn.word_expression v
  | .range lo hi il ih _ => sfn.range_expressions lo hi il ih
  | .fromItem c i _ => sfn.from_expression c i
  | .toItem c i _ => sfn.to_expression c i
  | .regex v _ => sfn.regex_expression v
  | _ => .error (.illegalFilter "is not supported yet")

/-- Models `BaseNode.__init__`: `default_fields or model.model_fields` — Python
truthiness makes both `None` and an empty dict fall back to the model's own
field names (in declaration order). -/
def resolveDefaultFields (model : Model) (default_fields : Option (List String)) :
    List String :=
  match default_fields with
  | none => model.fields.map (·.1)
  | some l => if l.isEmpty then model.fields.map (·.1) else l

/-- Models `components.WordNode` after `BaseNode.__init__` resolved the default
fields. -/
structure WordNode where
  value : String
  model : Model
  default_fields : List String

/-- One candidate of `WordNode.get_expressions`: everything inside the
`contextlib.suppress(Exception)` block — `get_field`, the `*` shortcut,
coercion and expression construction; any failure yields no expression. -/
def wordFieldExpr (model : Model) (value : String) (name : String) : Option Expr :=
  if model.hasAttr name then
    let f : FieldRef := ⟨model.name, name⟩
    if value = "*" then some (.isNotNull f)
    else
      match (ModelField.mk model name []).cast value with
      | .ok (.vStr s) => some (.like f (LikeWord.toPattern s))
      | .ok v => some (.eq f v)
      | .error _ => none
  else none

/-- Models `WordNode.get_expressions`: iterate the default field names, silently
skipping every candidate that fails; the iteration itself never raises. -/
def WordNode.get_expressions (w : WordNode) : List Expr :=
  w.default_fields.filterMap (wordFieldExpr w.model w.value)

/-- Models `components.PhraseNode` after `BaseNode.__init__` resolved the default
fields. -/
structure PhraseNode where
  value : String
  model : Model
  default_fields : List String

/-- One candidate of `PhraseNode.get_expressions` (inside the suppress
block): `get_field`, dequote, coercion, equality. -/
def phraseFieldExpr (model : Model) (value : String) (name : String) : Option Expr :=
  if model.hasAttr name then
    match dequote value with
    | .error _ => none
    | .ok dq =>
      match (ModelField.mk model name []).cast dq with
      | .ok v => some (.eq ⟨model.name, name⟩ v)
      | .error _ => none
  else none

/-- Models `PhraseNode.get_expressions`. -/
def PhraseNode.get_expressions (p : PhraseNode) : List Expr :=
  p.default_fields.filterMap (phraseFieldExpr p.model p.value)

/-- The constructor-time configuration of `builder.ExpressionsBuilder`
(model, relationship map, optional default fields).  The per-call state
(`expressions`, `_analyzed_positions`) is passed explicitly below. -/
structure ExpressionsBuilder where
  model : Model
  relationships : List (String × Relationship)
  default_fields : Option (List String)

/-- The mutable per-call state of the builder: `self.expressions` and
`self._analyzed_positions` (a set, modelled as a duplicate-free list). -/
structure BState where
  expressions : List Expr
  analyzed : List Int

/-- Python `pos or -1`: `None` is falsy, and so is the integer `0`, so both
an absent position and position `0` collapse to the key `-1`. -/
def pyOr (pos : Option Int) (d : Int) : Int :=
  match pos with
  | none => d
  | some v => if v = 0 then d else v

/-- Models `ExpressionsBuilder._handel_search_field` (the source spells it this
way): gate on the node's position key, record the key, then wrap each child
in a `SearchFieldNode` and yield its expressions. -/
def handelSearchField (b : ExpressionsBuilder) (name : String) (child : Item)
    (pos : Option Int) (a : List Int) : Except Err (List Expr × List Int) :=
  let p := pyOr pos (-1)
  if p ∈ a then .ok ([], a)
  else
    let a' := a.insert p
    match SearchFieldNode.get_expressions ⟨child, ⟨b.model, name, b.relationships⟩⟩ with
    | .error e => .error e
    | .ok es => .ok (es, a')

/-- Models `ExpressionsBuilder._handle_top_level_term`: gate on the position key,
record it, then expand the bare term over the default fields (`WordNode` /
`PhraseNode`); any other term kind raises `IllegalFilterError`. -/
def handleTopLevelTerm (b : ExpressionsBuilder) (node : Item) (a : List Int) :
    Except Err (List Expr × List Int) :=
  let p := pyOr node.pos (-1)
  if p ∈ a then .ok ([], a)
  else
    let a' := a.insert p
    match node with
    | .word v _ =>
      .ok ((WordNode.get_expressions
        ⟨v, b.model, resolveDefaultFields b.model b.default_fields⟩), a')
    | .phrase v _ =>
      .ok ((PhraseNode.get_expressions
        ⟨v, b.model, resolveDefaultFields b.model b.default_fields⟩), a')
    | _ => .error (.illegalFilter "Top level is not supported yet")

mutual

/-- Models `ExpressionsBuilder.get_expressions`: dispatch on the node kind.  A bare
`Word` yields nothing (`case Word(): pass`); unsupported kinds raise
`IllegalFilterError`.  The handler methods are inlined into the match arms:
`_handle_not` collects the single child's expressions and feeds them to
SQLAlchemy's `not_`, which accepts exactly one clause — an empty list yields
nothing, a singleton yields its negation, and two or more collected
expressions make `not_(*expressions)` raise `TypeError`; `_handle_group`
processes the group as an And operation over its one-element child list;
`_handle_and_operation` / `_handle_or_operation` chain the children's
expressions and, when at least one resulted, yield their `and_` / `or_`;
`_handle_unknown_operation` yields every child's expressions individually
with no wrapping connective. -/
def getExpressions (b : ExpressionsBuilder) (node : Item) (a : List Int) :
    Except Err (List Expr × List Int) :=
  match node with
  | .word _ _ => .ok ([], a)
  | .searchField n c p => handelSearchField b n c p a
  | .notOp c _ =>
    match getExpressions b c a with
    | .error e => .error e
    | .ok (es, a') =>
      match es with
      | [] => .ok ([], a')
      | [e] => .ok ([.not e], a')
      | _ => .error (.typeError "not_ takes 1 positional argument")
  | .group c _ =>
    match getExpressions b c a with
    | .error e => .error e
    | .ok (es, a') =>
      if es.isEmpty then .ok ([], a') else .ok ([.and es], a')
  | .andOp cs _ =>
    match getExpressionsList b cs a with
    | .error e => .error e
    | .ok (ess, a') =>
      let es := ess.flatten
      if es.isEmpty then .ok ([], a') else .ok ([.and es], a')
  | .orOp cs _ =>
    match getExpressionsList b cs a with
    | .error e => .error e
    | .ok (ess, a') =>
      let es := ess.flatten
      if es.isEmpty then .ok ([], a') else .ok ([.or es], a')
  | .unknownOp cs _ =>
    match getExpressionsList b cs a with
    | .error e => .error e
    | .ok (ess, a') => .ok (ess.flatten, a')
  | _ => .error (.illegalFilter "is not supported yet")

/-- Sequential evaluation of `get_expressions` over a child list (the
generators are consumed left to right, threading the position set). -/
def getExpressionsList (b : ExpressionsBuilder) (cs : List Item) (a : List Int) :
    Except Err (List (List Expr) × List Int) :=
  match cs with
  | [] => .ok ([], a)
  | c :: rest =>
    match getExpressions b c a with
    | .error e => .error e
    | .ok (es, a') =>
      match getExpressionsList b rest a' with
      | .error e => .error e
      | .ok (ess, a'') => .ok (es :: ess, a'')

end

/-- The `visit_term` top-level test.  `is_top_level` starts as
`len(parents) == 0`; the fallback probe `parents[-1][-1]` then subscripts a
luqum `Item`, which implements no `__getitem__`, so the probe raises
`TypeError` and `contextlib.suppress(Exception)` leaves `is_top_level`
False.  (The repository's own tests pin this behavior: `name:*` compiles to
a single `IS NOT NULL`, so the word below a `SearchField` is never expanded
as a top-level term.) -/
def isTopLevel (parents : List Item) : Bool := parents.isEmpty

mutual

/-- The luqum `TreeVisitor` walk (visitor.py of luqum, `track_parents=True`)
with the builder's `visit_*` overrides: dispatch picks the most specific
`visit_<class>` method along the class hierarchy — `visit_term` for words,
phrases and regexes, `visit_search_field`, `visit_and_operation`,
`visit_or_operation`, `visit_unknown_operation` and `visit_not` for their
node kinds — and falls back to the generic child walk for `group`, `range`,
`fromItem` and `toItem`.  Each override first extends `self.expressions`
with the handler's output and then generically visits the children with the
parent chain extended by the current node. -/
def visit (b : ExpressionsBuilder) (node : Item) (parents : List Item)
    (st : BState) : Except Err BState :=
  match node with
  | .word _ _ | .phrase _ _ | .regex _ _ =>
    if isTopLevel parents then
      match handleTopLevelTerm b node st.analyzed with
      | .error e => .error e
      | .ok (es, a') => .ok ⟨st.expressions ++ es, a'⟩
    else .ok st
  | .searchField n c p =>
    match getExpressions b (.searchField n c p) st.analyzed with
    | .error e => .error e
    | .ok (es, a') =>
      visit b c (parents ++ [.searchField n c p]) ⟨st.expressions ++ es, a'⟩
  | .notOp c p =>
    match getExpressions b (.notOp c p) st.analyzed with
    | .error e => .error e
    | .ok (es, a') =>
      visit b c (parents ++ [.notOp c p]) ⟨st.expressions ++ es, a'⟩
  | .andOp cs p =>
    match getExpressions b (.andOp cs p) st.analyzed with
    | .error e => .error e
    | .ok (es, a') =>
      visitChildren b cs (parents ++ [.andOp cs p]) ⟨st.expressions ++ es, a'⟩
  | .orOp cs p =>
    match getExpressions b (.orOp cs p) st.analyzed with
    | .error e => .error e
    | .ok (es, a') =>
      visitChildren b cs (parents ++ [.orOp cs p]) ⟨st.expressions ++ es, a'⟩
  | .unknownOp cs p =>
    match getExpressions b (.unknownOp cs p) st.analyzed with
    | .error e => .error e
    | .ok (es, a') =>
      visitChildren b cs (parents ++ [.unknownOp cs p]) ⟨st.expressions ++ es, a'⟩
  | .group c p => visit b c (parents ++ [.group c p]) st
  | .range lo hi il ih p =>
    match visit b lo (parents ++ [.range lo hi il ih p]) st with
    | .error e => .error e
    | .ok st' => visit b hi (parents ++ [.range lo hi il ih p]) st'
  | .fromItem c i p => visit b c (parents ++ [.fromItem c i p]) st
  | .toItem c i p => visit b c (parents ++ [.toItem c i p]) st

/-- Models `TreeVisitor.generic_visit`: visit the children in order, each with the
extended parent chain. -/
def visitChildren (b : ExpressionsBuilder) (cs : List Item) (parents : List Item)
    (st : BState) : Except Err BState :=
  match cs with
  | [] => .ok st
  | c :: rest =>
    match visit b c parents st with
    | .error e => .error e
    | .ok st' => visitChildren b rest parents st'

end

/-- The initial per-call state: `ExpressionsBuilder.__call__` assigns
`self.expressions = []` and `self._analyzed_positions = set()` before
visiting. -/
def initialBState : BState := ⟨[], []⟩

/-- Models `ExpressionsBuilder.__call__`: reset the instance state (whatever a
previous call left in it), visit the tree, and return the accumulated
expressions together with the instance state after the call. -/
def ExpressionsBuilder.call (b : ExpressionsBuilder) (_s : BState) (tree : Item) :
    Except Err (List Expr × BState) :=
  match visit b tree [] initialBState with
  | .error e => .error e
  | .ok st => .ok (st.expressions, st)

/-- The expression list produced by a fresh compile of `tree`. -/
def buildExpressions (b : ExpressionsBuilder) (tree : Item) : Except Err (List Expr) :=
  match b.call initialBState tree with
  | .error e => .error e
  | .ok (es, _) => .ok es

/-- The SELECT statement the facade builds: the selected entities (the model
itself when no entities are passed), the joined relationship specs in
map order, and the optional WHERE clause. -/
structure SelectStmt where
  entities : List String
  joins : List Relationship
  whereClause : Option Expr

/-- Models `SelectBuilder.__call__` with the default `entities=None`: compile the
tree, select the model, join every relationship-map value in order, and
attach `where(or_(*self.expressions))` only when at least one expression was
accumulated. -/
def SelectBuilder.call (b : ExpressionsBuilder) (tree : Item) :
    Except Err SelectStmt :=
  match buildExpressions b tree with
  | .error e => .error e
  | .ok es =>
    let s : SelectStmt := ⟨[b.model.name], b.relationships.map (·.2), none⟩
    if es.length > 0 then .ok { s with whereClause := some (.or es) }
    else .ok s

/-- Comparison of coerced values, used by the predicate semantics below:
integers and strings compare in their orders, anything else (including SQL
NULL) compares false. -/
def Value.cmpLe : Value → Value → Bool
  | .vInt x, .vInt y => decide (x ≤ y)
  | .vStr x, .vStr y => decide (x ≤ y)
  | _, _ => false

/-- Strict counterpart of `Value.cmpLe`. -/
def Value.cmpLt : Value → Value → Bool
  | .vInt x, .vInt y => decide (x < y)
  | .vStr x, .vStr y => decide (x < y)
  | _, _ => false

/-- SQL LIKE matching: `%` matches any run of characters, `_` exactly one. -/
def likeMatch (p s : List Char) : Bool :=
  match p, s with
  | [], [] => true
  | [], _ :: _ => false
  | '%' :: ps, s =>
    likeMatch ps s ||
      (match s with
       | [] => false
       | _ :: s' => likeMatch ('%' :: ps) s')
  | '_' :: ps, s =>
    (match s with
     | [] => false
     | _ :: s' => likeMatch ps s')
  | c :: ps, s =>
    (match s with
     | [] => false
     | c' :: s' => c = c' && likeMatch ps s')
termination_by (s.length, p.length)

mutual

/-- Modelled from the spec (§3 Predicate, §6 output contract): the backend's
evaluation of a compiled predicate against one row.  `row` gives each
attribute's value (`vNone` for SQL NULL, which satisfies no comparison);
regex matching is delegated to the `rx` oracle, since no claim depends on
regex semantics. -/
def evalExpr (rx : String → String → Bool) (row : FieldRef → Value) : Expr → Bool
  | .isNotNull f => !(row f == Value.vNone)
  | .like f p =>
    (match row f with
     | .vStr s => likeMatch p.data s.data
     | _ => false)
  | .eq f v => row f == v
  | .le f v => Value.cmpLe (row f) v
  | .lt f v => Value.cmpLt (row f) v
  | .ge f v => Value.cmpLe v (row f)
  | .gt f v => Value.cmpLt v (row f)
  | .regexpMatch f p =>
    (match row f with
     | .vStr s => rx p s
     | _ => false)
  | .and es => evalAll rx row es
  | .or es => evalAny rx row es
  | .not e => !(evalExpr rx row e)

/-- Conjunction of a predicate list. -/
def evalAll (rx : String → String → Bool) (row : FieldRef → Value) :
    List Expr → Bool
  | [] => true
  | e :: es => evalExpr rx row e && evalAll rx row es

/-- Disjunction of a predicate list. -/
def evalAny (rx : String → String → Bool) (row : FieldRef → Value) :
    List Expr → Bool
  | [] => false
  | e :: es => evalExpr rx row e || evalAny rx row es

end

/-- The `Hero` model of the repository's test suite, as far as the modelled
type system reaches: optional-int `id`, string `name` and `secret_name`,
optional-int `age` and `team_id`, and a declared `team` relationship. -/
def heroModel : Model :=
  { name := "Hero"
    fields := [("id", .tOpt .tInt), ("name", .tStr), ("secret_name", .tStr),
               ("age", .tOpt .tInt), ("team_id", .tOpt .tInt)]
    sqlmodelRelationships := ["team"] }

/-- A builder over `heroModel` with no relationships and no default
fields. -/
def heroBuilder : ExpressionsBuilder :=
  { model := heroModel, relationships := [], default_fields := none }

/-- The `Headquarter` model of the repository's test suite. -/
def headquarterModel : Model :=
  { name := "Headquarter"
    fields := [("id", .tOpt .tInt), ("name", .tStr)]
    sqlmodelRelationships := ["teams"] }

/-- The `Team` model of the repository's test suite. -/
def teamModel : Model :=
  { name := "Team"
    fields := [("id", .tOpt .tInt), ("name", .tStr), ("headquarter_id", .tOpt .tInt)]
    sqlmodelRelationships := ["headquarter", "heroes"] }

end SqlmodelFilters

namespace SqlmodelFilters

/-- The character-level wildcard mapping the spec describes: `?` to `_`,
`*` to `%`, all other characters unchanged.  Used to state what
`replace_wildcards` computes. -/
def wildcardChar (c : Char) : Char :=
  if c = '?' then '_' else if c = '*' then '%' else c

/-- Whether a resolution result is a failure carrying `IllegalFieldError`. -/
def isIllegalFieldResult (r : Except Err Model) : Bool :=
  match r with
  | .error (.illegalField _) => true
  | _ => false

/-- Root model for the dotted-path resolution counterexample: it declares a
relationship named `a` on the model itself. -/
def c3RootModel : Model := ⟨"A", [("x", .tStr)], ["a"]⟩

/-- Target model for the dotted-path resolution counterexample. -/
def c3TargetModel : Model := ⟨"B", [("c", .tStr)], []⟩

/-- A `ModelField` for the path `a.b.c` whose relationship map lacks the
intermediate segment `a` (while the root model declares it). -/
def c3ModelField : ModelField :=
  ⟨c3RootModel, "a.b.c", [("b", .plain c3TargetModel)]⟩

/-- A `Not` node whose single child compiles to two predicates: the luqum
tree of `NOT` applied to the implicit combination `name:x age:5`. -/
def c8Tree : Item :=
  .notOp
    (.unknownOp
      [.searchField "name" (.word "x" (some 8)) (some 8),
       .searchField "age" (.word "5" (some 15)) (some 15)] (some 8))
    (some 4)

/-- A row whose `age` column holds the integer 48 and whose other columns
are NULL. -/
def ageRow48 : FieldRef → Value :=
  fun f => if f = ⟨"Hero", "age"⟩ then .vInt 48 else .vNone

/-- A regex oracle that matches nothing (no claim depends on regex
semantics). -/
def rxNone : String → String → Bool := fun _ _ => false

end SqlmodelFilters

namespace SqlmodelFilters

/-! ## Theorems -/

/-- The two-pass wildcard replacement of `replace_wildcards` equals the
character-wise simultaneous mapping `? to _`, `* to %`. -/
theorem pyReplaceChar_wildcards_eq_map (l : List Char) :
    pyReplaceChar '*' '%' (pyReplaceChar '?' '_' l) = l.map wildcardChar := by
  induction l with
  | nil => rfl
  | cons c cs ih =>
    by_cases h1 : c = '?'
    · simp [pyReplaceChar, wildcardChar, h1, ih]
    · by_cases h2 : c = '*'
      · simp [pyReplaceChar, wildcardChar, h1, h2, ih]
      · simp [pyReplaceChar, wildcardChar, h1, h2, ih]

/-- C5: the wildcard translator maps each `?` to `_` and each `*` to `%`;
a literal with no wildcard character is wrapped in a leading and a trailing
`%`; a literal with at least one wildcard character is translated
character-wise with no wrapping; in particular `te?t` yields `te_t`, `te*t`
yields `te%t`, and `foo` yields `%foo%`. -/
theorem c5_wildcard_translation :
    (∀ s : String, LikeWord.has_wildcard s = true →
      LikeWord.toPattern s = String.mk (s.data.map wildcardChar)) ∧
    (∀ s : String, LikeWord.has_wildcard s = false →
      LikeWord.toPattern s = "%" ++ s ++ "%") ∧
    LikeWord.toPattern "te?t" = "te_t" ∧
    LikeWord.toPattern "te*t" = "te%t" ∧
    LikeWord.toPattern "foo" = "%foo%" := by
  refine ⟨?_, ?_, rfl, rfl, rfl⟩
  · intro s h
    simp [LikeWord.toPattern, h, replace_wildcards, pyReplaceChar_wildcards_eq_map]
  · intro s h
    simp [LikeWord.toPattern, h]

/-- Witness for C5 at the concrete literals `a?b` (wildcard present) and
`plain` (no wildcard). -/
theorem c5_wildcard_translation_witness :
    LikeWord.toPattern "a?b" = String.mk ("a?b".data.map wildcardChar) ∧
    LikeWord.toPattern "plain" = "%" ++ "plain" ++ "%" :=
  ⟨c5_wildcard_translation.1 "a?b" rfl, c5_wildcard_translation.2.1 "plain" rfl⟩

/-- C9: `__call__` resets the per-call state, so the result never depends on
the state a previous call left behind: any two input states give the same
result, and compiling `A` then `B` on the same instance equals compiling `B`
on a fresh instance. -/
theorem c9_consecutive_calls_independent :
    (∀ (b : ExpressionsBuilder) (s₁ s₂ : BState) (t : Item),
      ExpressionsBuilder.call b s₁ t = ExpressionsBuilder.call b s₂ t) ∧
    (∀ (b : ExpressionsBuilder) (s₀ : BState) (tA tB : Item)
        (esA : List Expr) (s₁ : BState),
      ExpressionsBuilder.call b s₀ tA = .ok (esA, s₁) →
      ExpressionsBuilder.call b s₁ tB = ExpressionsBuilder.call b initialBState tB) :=
  ⟨fun _ _ _ _ => rfl, fun _ _ _ _ _ _ _ => rfl⟩

/-- Witness for C9: compile `name:foo` and then `age:48` on the same
instance; the second call equals a fresh compile of `age:48`. -/
theorem c9_consecutive_calls_independent_witness :
    ExpressionsBuilder.call heroBuilder
      ⟨[.like ⟨"Hero", "name"⟩ "%foo%"], [-1]⟩
      (.searchField "age" (.word "48" (some 4)) (some 0)) =
    ExpressionsBuilder.call heroBuilder initialBState
      (.searchField "age" (.word "48" (some 4)) (some 0)) :=
  c9_consecutive_calls_independent.2 heroBuilder initialBState
    (.searchField "name" (.word "foo" (some 5)) (some 0))
    (.searchField "age" (.word "48" (some 4)) (some 0))
    [.like ⟨"Hero", "name"⟩ "%foo%"]
    ⟨[.like ⟨"Hero", "name"⟩ "%foo%"], [-1]⟩ rfl

/-- C1: when the whole-tree compilation accumulates at least one predicate,
the facade's SELECT carries a WHERE clause that is the disjunction of all
accumulated predicates; when it accumulates none, the SELECT has no WHERE
clause; and `name:* age:*` compiles to the disjunction of the two
`IS NOT NULL` predicates. -/
theorem c1_where_or_of_accumulated :
    (∀ (b : ExpressionsBuilder) (t : Item) (es : List Expr),
      buildExpressions b t = .ok es →
      (es ≠ [] →
        SelectBuilder.call b t =
          .ok ⟨[b.model.name], b.relationships.map (·.2), some (.or es)⟩) ∧
      (es = [] →
        SelectBuilder.call b t =
          .ok ⟨[b.model.name], b.relationships.map (·.2), none⟩)) ∧
    SelectBuilder.call heroBuilder
      (.unknownOp [.searchField "name" (.word "*" (some 5)) (some 0),
                   .searchField "age" (.word "*" (some 12)) (some 7)] (some 0)) =
      .ok ⟨["Hero"], [], some (.or [.isNotNull ⟨"Hero", "name"⟩,
                                    .isNotNull ⟨"Hero", "age"⟩])⟩ := by
  refine ⟨?_, rfl⟩
  intro b t es h
  constructor
  · intro hne
    cases es with
    | nil => exact absurd rfl hne
    | cons e es' => simp [SelectBuilder.call, h]
  · intro he
    subst he
    simp [SelectBuilder.call, h]

/-- Witness for C1 at a query producing one predicate (`name:foo`) and one
producing none (the bare word `zq` over a builder whose default fields are
only the integer `age`, every coercion of `zq` failing). -/
theorem c1_where_or_of_accumulated_witness :
    SelectBuilder.call heroBuilder (.searchField "name" (.word "foo" (some 5)) (some 0)) =
      .ok ⟨["Hero"], [], some (.or [.like ⟨"Hero", "name"⟩ "%foo%"])⟩ ∧
    SelectBuilder.call ⟨heroModel, [], some ["age"]⟩ (.word "zq" (some 0)) =
      .ok ⟨["Hero"], [], none⟩ :=
  ⟨(c1_where_or_of_accumulated.1 heroBuilder
      (.searchField "name" (.word "foo" (some 5)) (some 0))
      [.like ⟨"Hero", "name"⟩ "%foo%"] rfl).1 (by simp),
   (c1_where_or_of_accumulated.1 ⟨heroModel, [], some ["age"]⟩
      (.word "zq" (some 0)) [] rfl).2 rfl⟩

/-- C6: a field-qualified Word whose value is exactly `*` produces the single
field-IS-NOT-NULL predicate; otherwise the value is coerced, and a string
result produces a LIKE predicate over the translated pattern while any other
result produces an equality predicate. -/
theorem c6_word_qualified_expression :
    ∀ (mf : ModelField) (v : String) (wp : Option Int) (f : FieldRef),
      (v = "*" → mf.field = .ok f →
        SearchFieldNode.get_expressions ⟨.word v wp, mf⟩ = .ok [.isNotNull f]) ∧
      (∀ s, v ≠ "*" → mf.cast v = .ok (.vStr s) → mf.field = .ok f →
        SearchFieldNode.get_expressions ⟨.word v wp, mf⟩ =
          .ok [.like f (LikeWord.toPattern s)]) ∧
      (∀ w, v ≠ "*" → mf.cast v = .ok w → (∀ s, w ≠ .vStr s) → mf.field = .ok f →
        SearchFieldNode.get_expressions ⟨.word v wp, mf⟩ = .ok [.eq f w]) := by
  intro mf v wp f
  refine ⟨?_, ?_, ?_⟩
  · intro hv hf
    subst hv
    simp [SearchFieldNode.get_expressions, SearchFieldNode.word_expression, hf]
  · intro s hv hc hf
    simp [SearchFieldNode.get_expressions, SearchFieldNode.word_expression, hv, hc, hf]
  · intro w hv hc hw hf
    cases w with
    | vStr s => exact absurd rfl (hw s)
    | vInt n =>
      simp [SearchFieldNode.get_expressions, SearchFieldNode.word_expression, hv, hc, hf]
    | vBool bb =>
      simp [SearchFieldNode.get_expressions, SearchFieldNode.word_expression, hv, hc, hf]
    | vNone =>
      simp [SearchFieldNode.get_expressions, SearchFieldNode.word_expression, hv, hc, hf]

/-- Witness for C6: `name:*` gives `IS NOT NULL`, `name:Spider` gives a LIKE
over `%Spider%`, and `age:48` gives an integer equality. -/
theorem c6_word_qualified_expression_witness :
    SearchFieldNode.get_expressions
        ⟨.word "*" (some 5), ModelField.mk heroModel "name" []⟩ =
      .ok [.isNotNull ⟨"Hero", "name"⟩] ∧
    SearchFieldNode.get_expressions
        ⟨.word "Spider" (some 5), ModelField.mk heroModel "name" []⟩ =
      .ok [.like ⟨"Hero", "name"⟩ (LikeWord.toPattern "Spider")] ∧
    SearchFieldNode.get_expressions
        ⟨.word "48" (some 4), ModelField.mk heroModel "age" []⟩ =
      .ok [.eq ⟨"Hero", "age"⟩ (.vInt 48)] :=
  ⟨(c6_word_qualified_expression (ModelField.mk heroModel "name" []) "*" (some 5)
      ⟨"Hero", "name"⟩).1 rfl rfl,
   (c6_word_qualified_expression (ModelField.mk heroModel "name" []) "Spider" (some 5)
      ⟨"Hero", "name"⟩).2.1 "Spider" (by simp) rfl rfl,
   (c6_word_qualified_expression (ModelField.mk heroModel "age" []) "48" (some 4)
      ⟨"Hero", "age"⟩).2.2 (.vInt 48) (by simp) rfl (fun s => by simp) rfl⟩

/-- C7: a field-qualified Range produces the conjunction of the upper-bound
comparison (`<=` for an inclusive high bracket, `<` otherwise) and the
lower-bound comparison (`>=` for an inclusive low bracket, `>` otherwise);
the open-ended bounds produce `>=`/`>` (from) and `<=`/`<` (to); and,
semantically, `age:[40 TO 50]` matches age 48 while `age:{48 TO 60}` does
not. -/
theorem c7_range_expressions :
    (∀ (mf : ModelField) (lvs hvs : String) (lp hp rp : Option Int)
        (il ih : Bool) (f : FieldRef) (lv hv : Value),
      mf.field = .ok f → mf.cast hvs = .ok hv → mf.cast lvs = .ok lv →
      SearchFieldNode.get_expressions
          ⟨.range (.word lvs lp) (.word hvs hp) il ih rp, mf⟩ =
        .ok [.and [(if ih then Expr.le f hv else Expr.lt f hv),
                   (if il then Expr.ge f lv else Expr.gt f lv)]]) ∧
    (∀ (mf : ModelField) (s : String) (sp fp : Option Int) (inc : Bool)
        (f : FieldRef) (v : Value),
      mf.field = .ok f → mf.cast s = .ok v →
      SearchFieldNode.get_expressions ⟨.fromItem (.word s sp) inc fp, mf⟩ =
        .ok [if inc then Expr.ge f v else Expr.gt f v]) ∧
    (∀ (mf : ModelField) (s : String) (sp tp : Option Int) (inc : Bool)
        (f : FieldRef) (v : Value),
      mf.field = .ok f → mf.cast s = .ok v →
      SearchFieldNode.get_expressions ⟨.toItem (.word s sp) inc tp, mf⟩ =
        .ok [if inc then Expr.le f v else Expr.lt f v]) ∧
    SearchFieldNode.get_expressions
        ⟨.range (.word "40" none) (.word "50" none) true true none,
         ModelField.mk heroModel "age" []⟩ =
      .ok [.and [.le ⟨"Hero", "age"⟩ (.vInt 50), .ge ⟨"Hero", "age"⟩ (.vInt 40)]] ∧
    evalExpr rxNone ageRow48
      (.and [.le ⟨"Hero", "age"⟩ (.vInt 50), .ge ⟨"Hero", "age"⟩ (.vInt 40)]) = true ∧
    SearchFieldNode.get_expressions
        ⟨.range (.word "48" none) (.word "60" none) false false none,
         ModelField.mk heroModel "age" []⟩ =
      .ok [.and [.lt ⟨"Hero", "age"⟩ (.vInt 60), .gt ⟨"Hero", "age"⟩ (.vInt 48)]] ∧
    evalExpr rxNone ageRow48
      (.and [.lt ⟨"Hero", "age"⟩ (.vInt 60), .gt ⟨"Hero", "age"⟩ (.vInt 48)]) = false := by
  refine ⟨?_, ?_, ?_, rfl, rfl, rfl, rfl⟩
  · intro mf lvs hvs lp hp rp il ih f lv hv hf hch hcl
    simp [SearchFieldNode.get_expressions, SearchFieldNode.range_expressions,
      Item.termValue, hf, hch, hcl]
  · intro mf s sp fp inc f v hf hc
    simp [SearchFieldNode.get_expressions, SearchFieldNode.from_expression,
      Item.termValue, hf, hc]
  · intro mf s sp tp inc f v hf hc
    simp [SearchFieldNode.get_expressions, SearchFieldNode.to_expression,
      Item.termValue, hf, hc]

/-- Witness for C7: the four bound shapes at `age`, with inclusive and
exclusive brackets. -/
theorem c7_range_expressions_witness :
    SearchFieldNode.get_expressions
        ⟨.range (.word "47" none) (.word "50" none) true false none,
         ModelField.mk heroModel "age" []⟩ =
      .ok [.and [.lt ⟨"Hero", "age"⟩ (.vInt 50), .ge ⟨"Hero", "age"⟩ (.vInt 47)]] ∧
    SearchFieldNode.get_expressions
        ⟨.fromItem (.word "47" none) false none, ModelField.mk heroModel "age" []⟩ =
      .ok [.gt ⟨"Hero", "age"⟩ (.vInt 47)] ∧
    SearchFieldNode.get_expressions
        ⟨.toItem (.word "48" none) true none, ModelField.mk heroModel "age" []⟩ =
      .ok [.le ⟨"Hero", "age"⟩ (.vInt 48)] := by
  refine ⟨?_, ?_, ?_⟩
  · have h := c7_range_expressions.1 (ModelField.mk heroModel "age" [])
      "47" "50" none none none true false ⟨"Hero", "age"⟩ (.vInt 47) (.vInt 50)
      rfl rfl rfl
    simpa using h
  · have h := c7_range_expressions.2.1 (ModelField.mk heroModel "age" [])
      "47" none none false ⟨"Hero", "age"⟩ (.vInt 47) rfl rfl
    simpa using h
  · have h := c7_range_expressions.2.2.1 (ModelField.mk heroModel "age" [])
      "48" none none true ⟨"Hero", "age"⟩ (.vInt 48) rfl rfl
    simpa using h

/-- An already-recorded position key makes `_handel_search_field` emit
nothing and leave the position set unchanged. -/
theorem handelSearchField_gated (b : ExpressionsBuilder) (n : String) (c : Item)
    (pos : Option Int) (a : List Int) (h : pyOr pos (-1) ∈ a) :
    handelSearchField b n c pos a = .ok ([], a) := by
  simp [handelSearchField, h]

/-- On success, `_handel_search_field` has recorded the node's position key. -/
theorem handelSearchField_marks (b : ExpressionsBuilder) (n : String) (c : Item)
    (pos : Option Int) (a : List Int) (es : List Expr) (a' : List Int)
    (h : handelSearchField b n c pos a = .ok (es, a')) : pyOr pos (-1) ∈ a' := by
  by_cases hm : pyOr pos (-1) ∈ a
  · rw [handelSearchField_gated b n c pos a hm] at h
    simp only [Except.ok.injEq, Prod.mk.injEq] at h
    obtain ⟨-, rfl⟩ := h
    exact hm
  · cases hS : SearchFieldNode.get_expressions ⟨c, ⟨b.model, n, b.relationships⟩⟩ with
    | error e =>
      rw [show handelSearchField b n c pos a = .error e from by
        simp [handelSearchField, hm, hS]] at h
      exact Except.noConfusion h
    | ok es0 =>
      rw [show handelSearchField b n c pos a = .ok (es0, a.insert (pyOr pos (-1))) from by
        simp [handelSearchField, hm, hS]] at h
      simp only [Except.ok.injEq, Prod.mk.injEq] at h
      obtain ⟨-, rfl⟩ := h
      exact List.mem_insert_self _ _

/-- An already-recorded position key makes `_handle_top_level_term` emit
nothing and leave the position set unchanged. -/
theorem handleTopLevelTerm_gated (b : ExpressionsBuilder) (node : Item)
    (a : List Int) (h : pyOr node.pos (-1) ∈ a) :
    handleTopLevelTerm b node a = .ok ([], a) := by
  simp [handleTopLevelTerm, h]

/-- On success, `_handle_top_level_term` has recorded the node's position
key. -/
theorem handleTopLevelTerm_marks (b : ExpressionsBuilder) (node : Item)
    (a : List Int) (es : List Expr) (a' : List Int)
    (h : handleTopLevelTerm b node a = .ok (es, a')) : pyOr node.pos (-1) ∈ a' := by
  by_cases hm : pyOr node.pos (-1) ∈ a
  · rw [handleTopLevelTerm_gated b node a hm] at h
    simp only [Except.ok.injEq, Prod.mk.injEq] at h
    obtain ⟨-, rfl⟩ := h
    exact hm
  · cases node with
    | word v p =>
      rw [show handleTopLevelTerm b (.word v p) a =
          .ok (WordNode.get_expressions
            ⟨v, b.model, resolveDefaultFields b.model b.default_fields⟩,
            a.insert (pyOr (Item.word v p).pos (-1))) from by
        simp [handleTopLevelTerm, hm]] at h
      simp only [Except.ok.injEq, Prod.mk.injEq] at h
      obtain ⟨-, rfl⟩ := h
      exact List.mem_insert_self _ _
    | phrase v p =>
      rw [show handleTopLevelTerm b (.phrase v p) a =
          .ok (PhraseNode.get_expressions
            ⟨v, b.model, resolveDefaultFields b.model b.default_fields⟩,
            a.insert (pyOr (Item.phrase v p).pos (-1))) from by
        simp [handleTopLevelTerm, hm]] at h
      simp only [Except.ok.injEq, Prod.mk.injEq] at h
      obtain ⟨-, rfl⟩ := h
      exact List.mem_insert_self _ _
    | regex v p => simp [handleTopLevelTerm, hm] at h
    | searchField n c p => simp [handleTopLevelTerm, hm] at h
    | range lo hi il ih p => simp [handleTopLevelTerm, hm] at h
    | fromItem c i p => simp [handleTopLevelTerm, hm] at h
    | toItem c i p => simp [handleTopLevelTerm, hm] at h
    | group c p => simp [handleTopLevelTerm, hm] at h
    | andOp cs p => simp [handleTopLevelTerm, hm] at h
    | orOp cs p => simp [handleTopLevelTerm, hm] at h
    | unknownOp cs p => simp [handleTopLevelTerm, hm] at h
    | notOp c p => simp [handleTopLevelTerm, hm] at h

/-- C10: `pos or -1` collapses position `0` and an absent position to the
same key `-1`; once `-1` is recorded, any field-qualified node or top-level
bare term whose position is `0` or absent emits nothing; handling a node
with position `0` records `-1`; and in the full pipeline a second
search field with an absent position is silenced by a first one with
position `0`. -/
theorem c10_position_zero_collision :
    (pyOr (some 0) (-1) = -1 ∧ pyOr none (-1) = -1) ∧
    (∀ (b : ExpressionsBuilder) (n : String) (c : Item) (pos : Option Int)
        (a : List Int),
      (pos = some 0 ∨ pos = none) → (-1 : Int) ∈ a →
      handelSearchField b n c pos a = .ok ([], a)) ∧
    (∀ (b : ExpressionsBuilder) (node : Item) (a : List Int),
      (node.pos = some 0 ∨ node.pos = none) → (-1 : Int) ∈ a →
      handleTopLevelTerm b node a = .ok ([], a)) ∧
    (∀ (b : ExpressionsBuilder) (n : String) (c : Item) (pos : Option Int)
        (a : List Int) (es : List Expr) (a' : List Int),
      (pos = some 0 ∨ pos = none) →
      handelSearchField b n c pos a = .ok (es, a') → (-1 : Int) ∈ a') ∧
    buildExpressions heroBuilder
      (.unknownOp [.searchField "name" (.word "*" (some 5)) (some 0),
                   .searchField "age" (.word "*" (some 12)) none] (some 0)) =
      .ok [.isNotNull ⟨"Hero", "name"⟩] := by
  refine ⟨⟨rfl, rfl⟩, ?_, ?_, ?_, rfl⟩
  · intro b n c pos a hp hm
    have hkey : pyOr pos (-1) = -1 := by
      rcases hp with h | h <;> simp [h, pyOr]
    exact handelSearchField_gated b n c pos a (by rw [hkey]; exact hm)
  · intro b node a hp hm
    have hkey : pyOr node.pos (-1) = -1 := by
      rcases hp with h | h <;> simp [h, pyOr]
    exact handleTopLevelTerm_gated b node a (by rw [hkey]; exact hm)
  · intro b n c pos a es a' hp h
    have hkey : pyOr pos (-1) = -1 := by
      rcases hp with h' | h' <;> simp [h', pyOr]
    have hmark := handelSearchField_marks b n c pos a es a' h
    rw [hkey] at hmark
    exact hmark

/-- Witness for C10: the gate fires at position `some 0` and at an absent
position once `-1` is recorded, and a fresh handling of a position-`0` node
records `-1`. -/
theorem c10_position_zero_collision_witness :
    handelSearchField heroBuilder "name" (.word "*" (some 5)) (some 0) [-1] =
      .ok ([], [-1]) ∧
    handelSearchField heroBuilder "age" (.word "*" (some 12)) none [-1] =
      .ok ([], [-1]) ∧
    handleTopLevelTerm heroBuilder (.word "zz" (some 0)) [-1] = .ok ([], [-1]) ∧
    (-1 : Int) ∈ ([-1] : List Int) :=
  ⟨c10_position_zero_collision.2.1 heroBuilder "name" (.word "*" (some 5)) (some 0)
      [-1] (Or.inl rfl) (by decide),
   c10_position_zero_collision.2.1 heroBuilder "age" (.word "*" (some 12)) none
      [-1] (Or.inr rfl) (by decide),
   c10_position_zero_collision.2.2.1 heroBuilder (.word "zz" (some 0)) [-1]
      (Or.inl rfl) (by decide),
   c10_position_zero_collision.2.2.2.1 heroBuilder "name" (.word "*" (some 5))
      (some 0) [] [.isNotNull ⟨"Hero", "name"⟩] [-1] (Or.inl rfl) rfl⟩

/-- Every expression a `WordNode` candidate emits mentions exactly the
candidate's field on the node's model. -/
theorem wordFieldExpr_fieldOf (model : Model) (v n : String) (e : Expr)
    (h : wordFieldExpr model v n = some e) :
    e.fieldOf = some ⟨model.name, n⟩ := by
  by_cases ha : model.hasAttr n
  · by_cases hv : v = "*"
    · simp [wordFieldExpr, ha, hv] at h
      subst h
      rfl
    · cases hc : (ModelField.mk model n []).cast v with
      | error err => simp [wordFieldExpr, ha, hv, hc] at h
      | ok w =>
        cases w with
        | vStr s =>
          simp [wordFieldExpr, ha, hv, hc] at h
          subst h
          rfl
        | vInt m =>
          simp [wordFieldExpr, ha, hv, hc] at h
          subst h
          rfl
        | vBool bb =>
          simp [wordFieldExpr, ha, hv, hc] at h
          subst h
          rfl
        | vNone =>
          simp [wordFieldExpr, ha, hv, hc] at h
          subst h
          rfl
  · simp [wordFieldExpr, ha] at h

/-- C4: a coercion failure on an explicitly named field aborts the whole
compile with that error; compiling a top-level bare word never fails; and
default-field expansion omits every candidate whose attribute resolution or
coercion fails, emitting no predicate that mentions it. -/
theorem c4_coercion_fatal_vs_silent_skip :
    (∀ (b : ExpressionsBuilder) (name v : String) (wp sp : Option Int)
        (ty : FieldType) (err : Err),
      v ≠ "*" →
      (ModelField.mk b.model name b.relationships).field_info = .ok ty →
      castValue ty v = .error err →
      buildExpressions b (.searchField name (.word v wp) sp) = .error err) ∧
    (∀ (b : ExpressionsBuilder) (v : String) (wp : Option Int),
      buildExpressions b (.word v wp) =
        .ok (WordNode.get_expressions
          ⟨v, b.model, resolveDefaultFields b.model b.default_fields⟩)) ∧
    (∀ (model : Model) (dfs : List String) (v name : String),
      (model.hasAttr name = false ∨
        (v ≠ "*" ∧ ∃ err, (ModelField.mk model name []).cast v = .error err)) →
      ∀ e ∈ WordNode.get_expressions ⟨v, model, dfs⟩,
        e.fieldOf ≠ some ⟨model.name, name⟩) := by
  refine ⟨?_, ?_, ?_⟩
  · intro b name v wp sp ty err hv hfi hcast
    have hcastmf : (ModelField.mk b.model name b.relationships).cast v = .error err := by
      simp [ModelField.cast, hfi, hcast]
    simp [buildExpressions, ExpressionsBuilder.call, visit, getExpressions,
      handelSearchField, initialBState, SearchFieldNode.get_expressions,
      SearchFieldNode.word_expression, hv, hcastmf]
  · intro b v wp
    simp [buildExpressions, ExpressionsBuilder.call, visit, isTopLevel,
      handleTopLevelTerm, initialBState]
  · intro model dfs v name hfail e he
    simp only [WordNode.get_expressions, List.mem_filterMap] at he
    obtain ⟨n, -, hn⟩ := he
    have hf := wordFieldExpr_fieldOf model v n e hn
    by_cases hne : n = name
    · subst hne
      rcases hfail with ha | ⟨hv, err, hc⟩
      · simp [wordFieldExpr, ha] at hn
      · have hcast' : (ModelField.mk model n []).cast v = .error err := hc
        simp [wordFieldExpr, hv, hcast'] at hn
    · rw [hf]
      simp [hne]

/-- Witness for C4: `age:foo` aborts with the coercion error; the bare word
`zz` compiles without raising; and no emitted expression for bare `zz`
mentions the failing `age` candidate. -/
theorem c4_coercion_fatal_vs_silent_skip_witness :
    buildExpressions heroBuilder (.searchField "age" (.word "foo" (some 4)) (some 0)) =
      .error (.validationError "foo") ∧
    buildExpressions heroBuilder (.word "zz" none) =
      .ok [.like ⟨"Hero", "name"⟩ "%zz%", .like ⟨"Hero", "secret_name"⟩ "%zz%"] ∧
    (Expr.like ⟨"Hero", "name"⟩ "%zz%").fieldOf ≠ some ⟨"Hero", "age"⟩ :=
  ⟨c4_coercion_fatal_vs_silent_skip.1 heroBuilder "age" "foo" (some 4) (some 0)
      (.tOpt .tInt) (.validationError "foo") (by simp) rfl rfl,
   c4_coercion_fatal_vs_silent_skip.2.1 heroBuilder "zz" none,
   c4_coercion_fatal_vs_silent_skip.2.2 heroModel
      (resolveDefaultFields heroModel none) "zz" "age"
      (Or.inr ⟨by simp, ⟨.validationError "zz", rfl⟩⟩)
      (Expr.like ⟨"Hero", "name"⟩ "%zz%")
      (by rw [show WordNode.get_expressions
            ⟨"zz", heroModel, resolveDefaultFields heroModel none⟩ =
          [.like ⟨"Hero", "name"⟩ "%zz%", .like ⟨"Hero", "secret_name"⟩ "%zz%"]
          from rfl]
          exact List.mem_cons_self _ _)⟩

/-- C3 counterexample: for the path `a.b.c` over a root model that declares
the relationship `a` while the relationship map lacks the key `a`,
resolution fails with an uncaught `KeyError` from
`self.relationships[chain]`, not with `IllegalFieldError` — refuting the
claim that a non-final segment naming an undeclared relationship always
fails with IllegalField. -/
theorem c3_counterexample_keyerror :
    c3ModelField.chained_model = .error (.keyError "a") ∧
    isIllegalFieldResult c3ModelField.chained_model = false :=
  ⟨rfl, rfl⟩

/-- C3 (amended): for a depth-3 path `a.b.c`, (1) when the first segment is
declared on the root model, both `a` and `b` are present in the relationship
map and `c` is a field of the model mapped for `b`, resolution succeeds with
field `c` on that model; (2) a first segment not declared on the root model
fails with IllegalField; (3) a second-to-last segment absent from the
relationship map fails with IllegalField; (4) a final segment that is not an
attribute of the reached model fails with IllegalField; but (5) a first
segment that is declared on the root model while absent from the
relationship map fails with an uncaught KeyError instead of IllegalField.
Resolution never silently returns a default. -/
theorem c3_field_path_resolution :
    (∀ (M : Model) (rels : List (String × Relationship)) (nm a bseg c : String)
        (ra rb : Relationship) (ty : FieldType),
      pySplitDot nm = [a, bseg, c] →
      M.sqlmodelRelationships.contains a = true →
      rels.lookup a = some ra →
      rels.lookup bseg = some rb →
      (relationship_to_model rb).fields.lookup c = some ty →
      (ModelField.mk M nm rels).field =
        .ok ⟨(relationship_to_model rb).name, c⟩) ∧
    (∀ (M : Model) (rels : List (String × Relationship)) (nm a bseg c : String),
      pySplitDot nm = [a, bseg, c] →
      M.sqlmodelRelationships.contains a = false →
      (ModelField.mk M nm rels).chained_model =
        .error (.illegalField (M.name ++ " does not have field:" ++ a))) ∧
    (∀ (M : Model) (rels : List (String × Relationship)) (nm a bseg c : String)
        (ra : Relationship),
      pySplitDot nm = [a, bseg, c] →
      M.sqlmodelRelationships.contains a = true →
      rels.lookup a = some ra →
      rels.lookup bseg = none →
      (ModelField.mk M nm rels).chained_model =
        .error (.illegalField
          ((relationship_to_model ra).name ++ " does not have field:" ++ bseg))) ∧
    (∀ (mf : ModelField) (m : Model),
      mf.chained_model = .ok m →
      m.hasAttr mf.last_name = false →
      mf.field = .error (.illegalField
        (m.name ++ " does not have field:" ++ mf.last_name))) ∧
    (∀ (M : Model) (rels : List (String × Relationship)) (nm a bseg c : String),
      pySplitDot nm = [a, bseg, c] →
      M.sqlmodelRelationships.contains a = true →
      rels.lookup a = none →
      (ModelField.mk M nm rels).chained_model = .error (.keyError a)) := by
  refine ⟨?_, ?_, ?_, ?_, ?_⟩
  · intro M rels nm a bseg c ra rb ty hsplit hdecl hla hlb hfield
    have hchains : (ModelField.mk M nm rels).chains = [a, bseg, c] := hsplit
    have hdecl' : a ∈ M.sqlmodelRelationships := by simpa using hdecl
    have hcm : (ModelField.mk M nm rels).chained_model =
        .ok (relationship_to_model rb) := by
      simp [ModelField.chained_model, ModelField.is_chained, hchains,
        chainedModelLoop, hdecl', hla, hlb, List.dropLast, List.getLastD]
    simp [ModelField.field, hcm, ModelField.last_name, hchains, List.getLastD,
      Model.hasAttr, hfield]
  · intro M rels nm a bseg c hsplit hdecl
    have hchains : (ModelField.mk M nm rels).chains = [a, bseg, c] := hsplit
    have hdecl' : a ∉ M.sqlmodelRelationships := by simpa using hdecl
    simp [ModelField.chained_model, ModelField.is_chained, hchains,
      chainedModelLoop, hdecl', List.dropLast]
  · intro M rels nm a bseg c ra hsplit hdecl hla hlb
    have hchains : (ModelField.mk M nm rels).chains = [a, bseg, c] := hsplit
    have hdecl' : a ∈ M.sqlmodelRelationships := by simpa using hdecl
    simp [ModelField.chained_model, ModelField.is_chained, hchains,
      chainedModelLoop, hdecl', hla, hlb, List.dropLast, List.getLastD]
  · intro mf m hcm hattr
    simp [ModelField.field, hcm, hattr]
  · intro M rels nm a bseg c hsplit hdecl hla
    have hchains : (ModelField.mk M nm rels).chains = [a, bseg, c] := hsplit
    have hdecl' : a ∈ M.sqlmodelRelationships := by simpa using hdecl
    simp [ModelField.chained_model, ModelField.is_chained, hchains,
      chainedModelLoop, hdecl', hla, List.dropLast]

/-- Witness for C3 (amended) at the test suite's models: the depth-3 path
`team.headquarter.name` over `Hero` resolves to `name` on `Headquarter`; a
missing final segment fails with IllegalField; and the KeyError case fires
at the counterexample's input. -/
theorem c3_field_path_resolution_witness :
    (ModelField.mk heroModel "team.headquarter.name"
        [("team", .plain teamModel), ("headquarter", .plain headquarterModel)]).field =
      .ok ⟨"Headquarter", "name"⟩ ∧
    (ModelField.mk heroModel "nope" []).field =
      .error (.illegalField "Hero does not have field:nope") ∧
    c3ModelField.chained_model = .error (.keyError "a") :=
  ⟨c3_field_path_resolution.1 heroModel
      [("team", .plain teamModel), ("headquarter", .plain headquarterModel)]
      "team.headquarter.name" "team" "headquarter" "name"
      (.plain teamModel) (.plain headquarterModel) .tStr rfl rfl rfl rfl rfl,
   c3_field_path_resolution.2.2.2.1 (ModelField.mk heroModel "nope" [])
      heroModel rfl rfl,
   c3_field_path_resolution.2.2.2.2 c3RootModel [("b", .plain c3TargetModel)]
      "a.b.c" "a" "b" "c" rfl rfl rfl⟩

/-- C8 counterexample: a `Not` node whose child compiles to two predicates
makes `not_(*expressions)` blow up with `TypeError` — the compiler does not
emit the negation of the conjunction of the collected predicates. -/
theorem c8_counterexample_typeerror :
    buildExpressions heroBuilder c8Tree =
      .error (.typeError "not_ takes 1 positional argument") ∧
    buildExpressions heroBuilder c8Tree ≠
      .ok [.not (.and [.like ⟨"Hero", "name"⟩ "%x%",
                       .eq ⟨"Hero", "age"⟩ (.vInt 5)])] := by
  refine ⟨rfl, ?_⟩
  rw [show buildExpressions heroBuilder c8Tree =
      .error (.typeError "not_ takes 1 positional argument") from rfl]
  simp

/-- C8 (amended): compiling a `Not` node recursively compiles its child into
a predicate list; an empty list emits nothing, a singleton list emits
exactly its negation, and a list with two or more predicates makes the call
fail with `TypeError`, because SQLAlchemy's `not_` accepts a single
clause. -/
theorem c8_not_compilation :
    ∀ (b : ExpressionsBuilder) (child : Item) (np : Option Int) (a : List Int)
      (es : List Expr) (a' : List Int),
      getExpressions b child a = .ok (es, a') →
      (es = [] → getExpressions b (.notOp child np) a = .ok ([], a')) ∧
      (∀ e, es = [e] → getExpressions b (.notOp child np) a = .ok ([.not e], a')) ∧
      (∀ e₁ e₂ tl, es = e₁ :: e₂ :: tl →
        getExpressions b (.notOp child np) a =
          .error (.typeError "not_ takes 1 positional argument")) := by
  intro b child np a es a' h
  refine ⟨?_, ?_, ?_⟩
  · intro he
    subst he
    simp [getExpressions, h]
  · intro e he
    subst he
    simp [getExpressions, h]
  · intro e₁ e₂ tl he
    subst he
    simp [getExpressions, h]

/-- Witness for C8 (amended): over `heroModel`, `NOT` of one search field
negates its single predicate, and `NOT` of an implicit combination carrying
two search fields fails with `TypeError`. -/
theorem c8_not_compilation_witness :
    getExpressions heroBuilder
        (.notOp (.searchField "name" (.word "x" (some 8)) (some 8)) (some 4)) [] =
      .ok ([.not (.like ⟨"Hero", "name"⟩ "%x%")], [8]) ∧
    getExpressions heroBuilder
        (.notOp (.unknownOp
          [.searchField "name" (.word "x" (some 8)) (some 8),
           .searchField "age" (.word "5" (some 15)) (some 15)] (some 8)) (some 4)) [] =
      .error (.typeError "not_ takes 1 positional argument") :=
  ⟨(c8_not_compilation heroBuilder (.searchField "name" (.word "x" (some 8)) (some 8))
      (some 4) [] [.like ⟨"Hero", "name"⟩ "%x%"] [8] rfl).2.1
      (.like ⟨"Hero", "name"⟩ "%x%") rfl,
   (c8_not_compilation heroBuilder
      (.unknownOp [.searchField "name" (.word "x" (some 8)) (some 8),
                   .searchField "age" (.word "5" (some 15)) (some 15)] (some 8))
      (some 4) [] [.like ⟨"Hero", "name"⟩ "%x%", .eq ⟨"Hero", "age"⟩ (.vInt 5)]
      [15, 8] rfl).2.2
      (.like ⟨"Hero", "name"⟩ "%x%") (.eq ⟨"Hero", "age"⟩ (.vInt 5)) [] rfl⟩

mutual

/-- The compiler only ever adds position keys: the analyzed set grows
monotonically through `get_expressions`. -/
theorem getExpressions_analyzed_mono (b : ExpressionsBuilder) :
    ∀ (node : Item) (a : List Int) (es : List Expr) (a' : List Int),
      getExpressions b node a = .ok (es, a') → a ⊆ a'
  | .word v p, a, es, a', h => by
    simp only [getExpressions, Except.ok.injEq, Prod.mk.injEq] at h
    obtain ⟨-, rfl⟩ := h
    exact List.Subset.refl a
  | .searchField n c p, a, es, a', h => by
    simp only [getExpressions] at h
    by_cases hm : pyOr p (-1) ∈ a
    · rw [handelSearchField_gated b n c p a hm] at h
      simp only [Except.ok.injEq, Prod.mk.injEq] at h
      obtain ⟨-, rfl⟩ := h
      exact List.Subset.refl a
    · cases hS : SearchFieldNode.get_expressions ⟨c, ⟨b.model, n, b.relationships⟩⟩ with
      | error e =>
        rw [show handelSearchField b n c p a = .error e from by
          simp [handelSearchField, hm, hS]] at h
        exact Except.noConfusion h
      | ok es0 =>
        rw [show handelSearchField b n c p a =
            .ok (es0, a.insert (pyOr p (-1))) from by
          simp [handelSearchField, hm, hS]] at h
        simp only [Except.ok.injEq, Prod.mk.injEq] at h
        obtain ⟨-, rfl⟩ := h
        exact List.subset_insert _ a
  | .notOp c p, a, es, a', h => by
    cases hc : getExpressions b c a with
    | error e =>
      simp only [getExpressions, hc] at h
      exact Except.noConfusion h
    | ok r =>
      obtain ⟨es0, a1⟩ := r
      have ih := getExpressions_analyzed_mono b c a es0 a1 hc
      match es0 with
      | [] =>
        simp only [getExpressions, hc, Except.ok.injEq, Prod.mk.injEq] at h
        obtain ⟨-, rfl⟩ := h
        exact ih
      | [e] =>
        simp only [getExpressions, hc, Except.ok.injEq, Prod.mk.injEq] at h
        obtain ⟨-, rfl⟩ := h
        exact ih
      | e₁ :: e₂ :: tl =>
        simp only [getExpressions, hc] at h
        exact Except.noConfusion h
  | .group c p, a, es, a', h => by
    cases hc : getExpressions b c a with
    | error e =>
      simp only [getExpressions, hc] at h
      exact Except.noConfusion h
    | ok r =>
      obtain ⟨es0, a1⟩ := r
      have ih := getExpressions_analyzed_mono b c a es0 a1 hc
      by_cases hne : es0.isEmpty
      · simp only [getExpressions, hc, hne, if_true, Except.ok.injEq, Prod.mk.injEq] at h
        obtain ⟨-, rfl⟩ := h
        exact ih
      · simp only [getExpressions, hc, hne, if_false, Except.ok.injEq, Prod.mk.injEq] at h
        obtain ⟨-, rfl⟩ := h
        exact ih
  | .andOp cs p, a, es, a', h => by
    cases hl : getExpressionsList b cs a with
    | error e =>
      simp only [getExpressions, hl] at h
      exact Except.noConfusion h
    | ok r =>
      obtain ⟨ess, a1⟩ := r
      have ih := getExpressionsList_analyzed_mono b cs a ess a1 hl
      by_cases hne : ess.flatten.isEmpty
      · simp only [getExpressions, hl, hne, if_true, Except.ok.injEq, Prod.mk.injEq] at h
        obtain ⟨-, rfl⟩ := h
        exact ih
      · simp only [getExpressions, hl, hne, if_false, Except.ok.injEq, Prod.mk.injEq] at h
        obtain ⟨-, rfl⟩ := h
        exact ih
  | .orOp cs p, a, es, a', h => by
    cases hl : getExpressionsList b cs a with
    | error e =>
      simp only [getExpressions, hl] at h
      exact Except.noConfusion h
    | ok r =>
      obtain ⟨ess, a1⟩ := r
      have ih := getExpressionsList_analyzed_mono b cs a ess a1 hl
      by_cases hne : ess.flatten.isEmpty
      · simp only [getExpressions, hl, hne, if_true, Except.ok.injEq, Prod.mk.injEq] at h
        obtain ⟨-, rfl⟩ := h
        exact ih
      · simp only [getExpressions, hl, hne, if_false, Except.ok.injEq, Prod.mk.injEq] at h
        obtain ⟨-, rfl⟩ := h
        exact ih
  | .unknownOp cs p, a, es, a', h => by
    cases hl : getExpressionsList b cs a with
    | error e =>
      simp only [getExpressions, hl] at h
      exact Except.noConfusion h
    | ok r =>
      obtain ⟨ess, a1⟩ := r
      have ih := getExpressionsList_analyzed_mono b cs a ess a1 hl
      simp only [getExpressions, hl, Except.ok.injEq, Prod.mk.injEq] at h
      obtain ⟨-, rfl⟩ := h
      exact ih
  | .phrase v p, a, es, a', h => by
    simp only [getExpressions] at h
    exact Except.noConfusion h
  | .regex v p, a, es, a', h => by
    simp only [getExpressions] at h
    exact Except.noConfusion h
  | .range lo hi il ih p, a, es, a', h => by
    simp only [getExpressions] at h
    exact Except.noConfusion h
  | .fromItem c i p, a, es, a', h => by
    simp only [getExpressions] at h
    exact Except.noConfusion h
  | .toItem c i p, a, es, a', h => by
    simp only [getExpressions] at h
    exact Except.noConfusion h

/-- List version of `getExpressions_analyzed_mono`. -/
theorem getExpressionsList_analyzed_mono (b : ExpressionsBuilder) :
    ∀ (cs : List Item) (a : List Int) (ess : List (List Expr)) (a' : List Int),
      getExpressionsList b cs a = .ok (ess, a') → a ⊆ a'
  | [], a, ess, a', h => by
    simp only [getExpressionsList, Except.ok.injEq, Prod.mk.injEq] at h
    obtain ⟨-, rfl⟩ := h
    exact List.Subset.refl a
  | c :: rest, a, ess, a', h => by
    cases hc : getExpressions b c a with
    | error e =>
      simp only [getExpressionsList, hc] at h
      exact Except.noConfusion h
    | ok r =>
      obtain ⟨es0, a1⟩ := r
      cases hl : getExpressionsList b rest a1 with
      | error e =>
        simp only [getExpressionsList, hc, hl] at h
        exact Except.noConfusion h
      | ok r2 =>
        obtain ⟨ess2, a2⟩ := r2
        simp only [getExpressionsList, hc, hl, Except.ok.injEq, Prod.mk.injEq] at h
        obtain ⟨-, rfl⟩ := h
        exact (getExpressions_analyzed_mono b c a es0 a1 hc).trans
          (getExpressionsList_analyzed_mono b rest a1 ess2 a2 hl)

end

mutual

/-- Once a subtree has been compiled, re-running `get_expressions` on it from
any position set extending the resulting one yields no expressions and
leaves the set unchanged: every leaf gate is already closed. -/
theorem getExpressions_idem (b : ExpressionsBuilder) :
    ∀ (node : Item) (a : List Int) (es : List Expr) (a' : List Int) (bnd : List Int),
      getExpressions b node a = .ok (es, a') → a' ⊆ bnd →
      getExpressions b node bnd = .ok ([], bnd)
  | .word v p, a, es, a', bnd, h, hsub => by
    simp only [getExpressions]
  | .searchField n c p, a, es, a', bnd, h, hsub => by
    simp only [getExpressions] at h
    have hmem : pyOr p (-1) ∈ bnd := hsub (handelSearchField_marks b n c p a es a' h)
    simp only [getExpressions]
    exact handelSearchField_gated b n c p bnd hmem
  | .notOp c p, a, es, a', bnd, h, hsub => by
    cases hc : getExpressions b c a with
    | error e =>
      simp only [getExpressions, hc] at h
      exact Except.noConfusion h
    | ok r =>
      obtain ⟨es0, a1⟩ := r
      match es0 with
      | [] =>
        simp only [getExpressions, hc, Except.ok.injEq, Prod.mk.injEq] at h
        obtain ⟨-, rfl⟩ := h
        have ih := getExpressions_idem b c a [] a1 bnd hc hsub
        simp [getExpressions, ih]
      | [e] =>
        simp only [getExpressions, hc, Except.ok.injEq, Prod.mk.injEq] at h
        obtain ⟨-, rfl⟩ := h
        have ih := getExpressions_idem b c a [e] a1 bnd hc hsub
        simp [getExpressions, ih]
      | e₁ :: e₂ :: tl =>
        simp only [getExpressions, hc] at h
        exact Except.noConfusion h
  | .group c p, a, es, a', bnd, h, hsub => by
    cases hc : getExpressions b c a with
    | error e =>
      simp only [getExpressions, hc] at h
      exact Except.noConfusion h
    | ok r =>
      obtain ⟨es0, a1⟩ := r
      by_cases hne : es0.isEmpty
      · simp only [getExpressions, hc, hne, if_true, Except.ok.injEq, Prod.mk.injEq] at h
        obtain ⟨-, rfl⟩ := h
        have ih := getExpressions_idem b c a es0 a1 bnd hc hsub
        simp [getExpressions, ih]
      · simp only [getExpressions, hc, hne, if_false, Except.ok.injEq, Prod.mk.injEq] at h
        obtain ⟨-, rfl⟩ := h
        have ih := getExpressions_idem b c a es0 a' bnd hc hsub
        simp [getExpressions, ih]
  | .andOp cs p, a, es, a', bnd, h, hsub => by
    cases hl : getExpressionsList b cs a with
    | error e =>
      simp only [getExpressions, hl] at h
      exact Except.noConfusion h
    | ok r =>
      obtain ⟨ess, a1⟩ := r
      by_cases hne : ess.flatten.isEmpty
      · simp only [getExpressions, hl, hne, if_true, Except.ok.injEq, Prod.mk.injEq] at h
        obtain ⟨-, rfl⟩ := h
        obtain ⟨ess', hl', hfl⟩ := getExpressionsList_idem b cs a ess a1 bnd hl hsub
        simp [getExpressions, hl', hfl]
      · simp only [getExpressions, hl, hne, if_false, Except.ok.injEq, Prod.mk.injEq] at h
        obtain ⟨-, rfl⟩ := h
        obtain ⟨ess', hl', hfl⟩ := getExpressionsList_idem b cs a ess a' bnd hl hsub
        simp [getExpressions, hl', hfl]
  | .orOp cs p, a, es, a', bnd, h, hsub => by
    cases hl : getExpressionsList b cs a with
    | error e =>
      simp only [getExpressions, hl] at h
      exact Except.noConfusion h
    | ok r =>
      obtain ⟨ess, a1⟩ := r
      by_cases hne : ess.flatten.isEmpty
      · simp only [getExpressions, hl, hne, if_true, Except.ok.injEq, Prod.mk.injEq] at h
        obtain ⟨-, rfl⟩ := h
        obtain ⟨ess', hl', hfl⟩ := getExpressionsList_idem b cs a ess a1 bnd hl hsub
        simp [getExpressions, hl', hfl]
      · simp only [getExpressions, hl, hne, if_false, Except.ok.injEq, Prod.mk.injEq] at h
        obtain ⟨-, rfl⟩ := h
        obtain ⟨ess', hl', hfl⟩ := getExpressionsList_idem b cs a ess a' bnd hl hsub
        simp [getExpressions, hl', hfl]
  | .unknownOp cs p, a, es, a', bnd, h, hsub => by
    cases hl : getExpressionsList b cs a with
    | error e =>
      simp only [getExpressions, hl] at h
      exact Except.noConfusion h
    | ok r =>
      obtain ⟨ess, a1⟩ := r
      simp only [getExpressions, hl, Except.ok.injEq, Prod.mk.injEq] at h
      obtain ⟨-, rfl⟩ := h
      obtain ⟨ess', hl', hfl⟩ := getExpressionsList_idem b cs a ess a1 bnd hl hsub
      simp [getExpressions, hl', hfl]
  | .phrase v p, a, es, a', bnd, h, hsub => by
    simp only [getExpressions] at h
    exact Except.noConfusion h
  | .regex v p, a, es, a', bnd, h, hsub => by
    simp only [getExpressions] at h
    exact Except.noConfusion h
  | .range lo hi il ih p, a, es, a', bnd, h, hsub => by
    simp only [getExpressions] at h
    exact Except.noConfusion h
  | .fromItem c i p, a, es, a', bnd, h, hsub => by
    simp only [getExpressions] at h
    exact Except.noConfusion h
  | .toItem c i p, a, es, a', bnd, h, hsub => by
    simp only [getExpressions] at h
    exact Except.noConfusion h

/-- List version of `getExpressions_idem`. -/
theorem getExpressionsList_idem (b : ExpressionsBuilder) :
    ∀ (cs : List Item) (a : List Int) (ess : List (List Expr)) (a' : List Int)
      (bnd : List Int),
      getExpressionsList b cs a = .ok (ess, a') → a' ⊆ bnd →
      ∃ ess', getExpressionsList b cs bnd = .ok (ess', bnd) ∧ ess'.flatten = []
  | [], a, ess, a', bnd, h, hsub => by
    exact ⟨[], by simp [getExpressionsList], rfl⟩
  | c :: rest, a, ess, a', bnd, h, hsub => by
    cases hc : getExpressions b c a with
    | error e =>
      simp only [getExpressionsList, hc] at h
      exact Except.noConfusion h
    | ok r =>
      obtain ⟨es0, a1⟩ := r
      cases hl : getExpressionsList b rest a1 with
      | error e =>
        simp only [getExpressionsList, hc, hl] at h
        exact Except.noConfusion h
      | ok r2 =>
        obtain ⟨ess2, a2⟩ := r2
        simp only [getExpressionsList, hc, hl, Except.ok.injEq, Prod.mk.injEq] at h
        obtain ⟨-, rfl⟩ := h
        have hsub1 : a1 ⊆ bnd :=
          (getExpressionsList_analyzed_mono b rest a1 ess2 a2 hl).trans hsub
        have ihc := getExpressions_idem b c a es0 a1 bnd hc hsub1
        obtain ⟨ess', hl', hfl⟩ := getExpressionsList_idem b rest a1 ess2 a2 bnd hl hsub
        refine ⟨[] :: ess', ?_, ?_⟩
        · simp [getExpressionsList, ihc, hl']
        · simp [hfl]

end

/-- Models `_handle_top_level_term` only ever adds position keys. -/
theorem handleTopLevelTerm_analyzed_mono (b : ExpressionsBuilder) (node : Item)
    (a : List Int) (es : List Expr) (a' : List Int)
    (h : handleTopLevelTerm b node a = .ok (es, a')) : a ⊆ a' := by
  by_cases hm : pyOr node.pos (-1) ∈ a
  · rw [handleTopLevelTerm_gated b node a hm] at h
    simp only [Except.ok.injEq, Prod.mk.injEq] at h
    obtain ⟨-, rfl⟩ := h
    exact List.Subset.refl a
  · cases node with
    | word v p =>
      rw [show handleTopLevelTerm b (.word v p) a =
          .ok (WordNode.get_expressions
            ⟨v, b.model, resolveDefaultFields b.model b.default_fields⟩,
            a.insert (pyOr (Item.word v p).pos (-1))) from by
        simp [handleTopLevelTerm, hm]] at h
      simp only [Except.ok.injEq, Prod.mk.injEq] at h
      obtain ⟨-, rfl⟩ := h
      exact List.subset_insert _ a
    | phrase v p =>
      rw [show handleTopLevelTerm b (.phrase v p) a =
          .ok (PhraseNode.get_expressions
            ⟨v, b.model, resolveDefaultFields b.model b.default_fields⟩,
            a.insert (pyOr (Item.phrase v p).pos (-1))) from by
        simp [handleTopLevelTerm, hm]] at h
      simp only [Except.ok.injEq, Prod.mk.injEq] at h
      obtain ⟨-, rfl⟩ := h
      exact List.subset_insert _ a
    | regex v p => simp [handleTopLevelTerm, hm] at h
    | searchField n c p => simp [handleTopLevelTerm, hm] at h
    | range lo hi il ih p => simp [handleTopLevelTerm, hm] at h
    | fromItem c i p => simp [handleTopLevelTerm, hm] at h
    | toItem c i p => simp [handleTopLevelTerm, hm] at h
    | group c p => simp [handleTopLevelTerm, hm] at h
    | andOp cs p => simp [handleTopLevelTerm, hm] at h
    | orOp cs p => simp [handleTopLevelTerm, hm] at h
    | unknownOp cs p => simp [handleTopLevelTerm, hm] at h
    | notOp c p => simp [handleTopLevelTerm, hm] at h

mutual

/-- The visitor walk only ever adds position keys. -/
theorem visit_analyzed_mono (b : ExpressionsBuilder) :
    ∀ (node : Item) (parents : List Item) (st st' : BState),
      visit b node parents st = .ok st' → st.analyzed ⊆ st'.analyzed
  | .word v p, parents, st, st', h => by
    by_cases hp : isTopLevel parents
    · cases ht : handleTopLevelTerm b (.word v p) st.analyzed with
      | error e =>
        simp only [visit, hp, if_true, ht] at h
        exact Except.noConfusion h
      | ok r =>
        obtain ⟨es, a1⟩ := r
        simp only [visit, hp, if_true, ht, Except.ok.injEq] at h
        subst h
        exact handleTopLevelTerm_analyzed_mono b (.word v p) st.analyzed es a1 ht
    · simp [visit, hp] at h
      subst h
      exact List.Subset.refl _
  | .phrase v p, parents, st, st', h => by
    by_cases hp : isTopLevel parents
    · cases ht : handleTopLevelTerm b (.phrase v p) st.analyzed with
      | error e =>
        simp only [visit, hp, if_true, ht] at h
        exact Except.noConfusion h
      | ok r =>
        obtain ⟨es, a1⟩ := r
        simp only [visit, hp, if_true, ht, Except.ok.injEq] at h
        subst h
        exact handleTopLevelTerm_analyzed_mono b (.phrase v p) st.analyzed es a1 ht
    · simp [visit, hp] at h
      subst h
      exact List.Subset.refl _
  | .regex v p, parents, st, st', h => by
    by_cases hp : isTopLevel parents
    · cases ht : handleTopLevelTerm b (.regex v p) st.analyzed with
      | error e =>
        simp only [visit, hp, if_true, ht] at h
        exact Except.noConfusion h
      | ok r =>
        obtain ⟨es, a1⟩ := r
        simp only [visit, hp, if_true, ht, Except.ok.injEq] at h
        subst h
        exact handleTopLevelTerm_analyzed_mono b (.regex v p) st.analyzed es a1 ht
    · simp [visit, hp] at h
      subst h
      exact List.Subset.refl _
  | .searchField n c p, parents, st, st', h => by
    cases hg : getExpressions b (.searchField n c p) st.analyzed with
    | error e =>
      simp only [visit, hg] at h
      exact Except.noConfusion h
    | ok r =>
      obtain ⟨es, a1⟩ := r
      simp only [visit, hg] at h
      have h1 := getExpressions_analyzed_mono b (.searchField n c p) st.analyzed es a1 hg
      have h2 := visit_analyzed_mono b c (parents ++ [.searchField n c p])
        ⟨st.expressions ++ es, a1⟩ st' h
      exact h1.trans h2
  | .notOp c p, parents, st, st', h => by
    cases hg : getExpressions b (.notOp c p) st.analyzed with
    | error e =>
      simp only [visit, hg] at h
      exact Except.noConfusion h
    | ok r =>
      obtain ⟨es, a1⟩ := r
      simp only [visit, hg] at h
      have h1 := getExpressions_analyzed_mono b (.notOp c p) st.analyzed es a1 hg
      have h2 := visit_analyzed_mono b c (parents ++ [.notOp c p])
        ⟨st.expressions ++ es, a1⟩ st' h
      exact h1.trans h2
  | .andOp cs p, parents, st, st', h => by
    cases hg : getExpressions b (.andOp cs p) st.analyzed with
    | error e =>
      simp only [visit, hg] at h
      exact Except.noConfusion h
    | ok r =>
      obtain ⟨es, a1⟩ := r
      simp only [visit, hg] at h
      have h1 := getExpressions_analyzed_mono b (.andOp cs p) st.analyzed es a1 hg
      have h2 := visitChildren_analyzed_mono b cs (parents ++ [.andOp cs p])
        ⟨st.expressions ++ es, a1⟩ st' h
      exact h1.trans h2
  | .orOp cs p, parents, st, st', h => by
    cases hg : getExpressions b (.orOp cs p) st.analyzed with
    | error e =>
      simp only [visit, hg] at h
      exact Except.noConfusion h
    | ok r =>
      obtain ⟨es, a1⟩ := r
      simp only [visit, hg] at h
      have h1 := getExpressions_analyzed_mono b (.orOp cs p) st.analyzed es a1 hg
      have h2 := visitChildren_analyzed_mono b cs (parents ++ [.orOp cs p])
        ⟨st.expressions ++ es, a1⟩ st' h
      exact h1.trans h2
  | .unknownOp cs p, parents, st, st', h => by
    cases hg : getExpressions b (.unknownOp cs p) st.analyzed with
    | error e =>
      simp only [visit, hg] at h
      exact Except.noConfusion h
    | ok r =>
      obtain ⟨es, a1⟩ := r
      simp only [visit, hg] at h
      have h1 := getExpressions_analyzed_mono b (.unknownOp cs p) st.analyzed es a1 hg
      have h2 := visitChildren_analyzed_mono b cs (parents ++ [.unknownOp cs p])
        ⟨st.expressions ++ es, a1⟩ st' h
      exact h1.trans h2
  | .group c p, parents, st, st', h => by
    simp only [visit] at h
    exact visit_analyzed_mono b c (parents ++ [.group c p]) st st' h
  | .range lo hi il ih p, parents, st, st', h => by
    cases hm : visit b lo (parents ++ [.range lo hi il ih p]) st with
    | error e =>
      simp only [visit, hm] at h
      exact Except.noConfusion h
    | ok stm =>
      simp only [visit, hm] at h
      exact (visit_analyzed_mono b lo _ st stm hm).trans
        (visit_analyzed_mono b hi (parents ++ [.range lo hi il ih p]) stm st' h)
  | .fromItem c i p, parents, st, st', h => by
    simp only [visit] at h
    exact visit_analyzed_mono b c (parents ++ [.fromItem c i p]) st st' h
  | .toItem c i p, parents, st, st', h => by
    simp only [visit] at h
    exact visit_analyzed_mono b c (parents ++ [.toItem c i p]) st st' h

/-- List version of `visit_analyzed_mono`. -/
theorem visitChildren_analyzed_mono (b : ExpressionsBuilder) :
    ∀ (cs parents : List Item) (st st' : BState),
      visitChildren b cs parents st = .ok st' → st.analyzed ⊆ st'.analyzed
  | [], parents, st, st', h => by
    simp only [visitChildren, Except.ok.injEq] at h
    subst h
    exact List.Subset.refl _
  | c :: rest, parents, st, st', h => by
    cases hv : visit b c parents st with
    | error e =>
      simp only [visitChildren, hv] at h
      exact Except.noConfusion h
    | ok s1 =>
      simp only [visitChildren, hv] at h
      exact (visit_analyzed_mono b c parents st s1 hv).trans
        (visitChildren_analyzed_mono b rest parents s1 st' h)

end

mutual

/-- Re-visiting a subtree that has already been visited during the same call
changes nothing: from any state whose position set extends the first visit's
result, the walk emits no expressions and returns the state unchanged.  Every
leaf emission is gated by a position key recorded before the predicates were
appended. -/
theorem visit_revisit (b : ExpressionsBuilder) :
    ∀ (node : Item) (parents : List Item) (st st' : BState),
      visit b node parents st = .ok st' →
      ∀ st₂ : BState, st'.analyzed ⊆ st₂.analyzed →
      visit b node parents st₂ = .ok st₂
  | .word v p, parents, st, st', h => by
    by_cases hp : isTopLevel parents
    · cases ht : handleTopLevelTerm b (.word v p) st.analyzed with
      | error e =>
        simp only [visit, hp, if_true, ht] at h
        exact Except.noConfusion h
      | ok r =>
        obtain ⟨es, a1⟩ := r
        simp only [visit, hp, if_true, ht, Except.ok.injEq] at h
        subst h
        intro st₂ hsub
        have hmem : pyOr (Item.word v p).pos (-1) ∈ st₂.analyzed :=
          hsub (handleTopLevelTerm_marks b (.word v p) st.analyzed es a1 ht)
        simp [visit, hp, handleTopLevelTerm_gated b (.word v p) st₂.analyzed hmem]
    · intro st₂ hsub
      simp [visit, hp]
  | .phrase v p, parents, st, st', h => by
    by_cases hp : isTopLevel parents
    · cases ht : handleTopLevelTerm b (.phrase v p) st.analyzed with
      | error e =>
        simp only [visit, hp, if_true, ht] at h
        exact Except.noConfusion h
      | ok r =>
        obtain ⟨es, a1⟩ := r
        simp only [visit, hp, if_true, ht, Except.ok.injEq] at h
        subst h
        intro st₂ hsub
        have hmem : pyOr (Item.phrase v p).pos (-1) ∈ st₂.analyzed :=
          hsub (handleTopLevelTerm_marks b (.phrase v p) st.analyzed es a1 ht)
        simp [visit, hp, handleTopLevelTerm_gated b (.phrase v p) st₂.analyzed hmem]
    · intro st₂ hsub
      simp [visit, hp]
  | .regex v p, parents, st, st', h => by
    by_cases hp : isTopLevel parents
    · cases ht : handleTopLevelTerm b (.regex v p) st.analyzed with
      | error e =>
        simp only [visit, hp, if_true, ht] at h
        exact Except.noConfusion h
      | ok r =>
        obtain ⟨es, a1⟩ := r
        simp only [visit, hp, if_true, ht, Except.ok.injEq] at h
        subst h
        intro st₂ hsub
        have hmem : pyOr (Item.regex v p).pos (-1) ∈ st₂.analyzed :=
          hsub (handleTopLevelTerm_marks b (.regex v p) st.analyzed es a1 ht)
        simp [visit, hp, handleTopLevelTerm_gated b (.regex v p) st₂.analyzed hmem]
    · intro st₂ hsub
      simp [visit, hp]
  | .searchField n c p, parents, st, st', h => by
    cases hg : getExpressions b (.searchField n c p) st.analyzed with
    | error e =>
      simp only [visit, hg] at h
      exact Except.noConfusion h
    | ok r =>
      obtain ⟨es, a1⟩ := r
      simp only [visit, hg] at h
      intro st₂ hsub
      have hmono := visit_analyzed_mono b c (parents ++ [.searchField n c p])
        ⟨st.expressions ++ es, a1⟩ st' h
      have hidem := getExpressions_idem b (.searchField n c p) st.analyzed es a1
        st₂.analyzed hg (hmono.trans hsub)
      have hrec := visit_revisit b c (parents ++ [.searchField n c p])
        ⟨st.expressions ++ es, a1⟩ st' h st₂ hsub
      simp [visit, hidem, hrec]
  | .notOp c p, parents, st, st', h => by
    cases hg : getExpressions b (.notOp c p) st.analyzed with
    | error e =>
      simp only [visit, hg] at h
      exact Except.noConfusion h
    | ok r =>
      obtain ⟨es, a1⟩ := r
      simp only [visit, hg] at h
      intro st₂ hsub
      have hmono := visit_analyzed_mono b c (parents ++ [.notOp c p])
        ⟨st.expressions ++ es, a1⟩ st' h
      have hidem := getExpressions_idem b (.notOp c p) st.analyzed es a1
        st₂.analyzed hg (hmono.trans hsub)
      have hrec := visit_revisit b c (parents ++ [.notOp c p])
        ⟨st.expressions ++ es, a1⟩ st' h st₂ hsub
      simp [visit, hidem, hrec]
  | .andOp cs p, parents, st, st', h => by
    cases hg : getExpressions b (.andOp cs p) st.analyzed with
    | error e =>
      simp only [visit, hg] at h
      exact Except.noConfusion h
    | ok r =>
      obtain ⟨es, a1⟩ := r
      simp only [visit, hg] at h
      intro st₂ hsub
      have hmono := visitChildren_analyzed_mono b cs (parents ++ [.andOp cs p])
        ⟨st.expressions ++ es, a1⟩ st' h
      have hidem := getExpressions_idem b (.andOp cs p) st.analyzed es a1
        st₂.analyzed hg (hmono.trans hsub)
      have hrec := visitChildren_revisit b cs (parents ++ [.andOp cs p])
        ⟨st.expressions ++ es, a1⟩ st' h st₂ hsub
      simp [visit, hidem, hrec]
  | .orOp cs p, parents, st, st', h => by
    cases hg : getExpressions b (.orOp cs p) st.analyzed with
    | error e =>
      simp only [visit, hg] at h
      exact Except.noConfusion h
    | ok r =>
      obtain ⟨es, a1⟩ := r
      simp only [visit, hg] at h
      intro st₂ hsub
      have hmono := visitChildren_analyzed_mono b cs (parents ++ [.orOp cs p])
        ⟨st.expressions ++ es, a1⟩ st' h
      have hidem := getExpressions_idem b (.orOp cs p) st.analyzed es a1
        st₂.analyzed hg (hmono.trans hsub)
      have hrec := visitChildren_revisit b cs (parents ++ [.orOp cs p])
        ⟨st.expressions ++ es, a1⟩ st' h st₂ hsub
      simp [visit, hidem, hrec]
  | .unknownOp cs p, parents, st, st', h => by
    cases hg : getExpressions b (.unknownOp cs p) st.analyzed with
    | error e =>
      simp only [visit, hg] at h
      exact Except.noConfusion h
    | ok r =>
      obtain ⟨es, a1⟩ := r
      simp only [visit, hg] at h
      intro st₂ hsub
      have hmono := visitChildren_analyzed_mono b cs (parents ++ [.unknownOp cs p])
        ⟨st.expressions ++ es, a1⟩ st' h
      have hidem := getExpressions_idem b (.unknownOp cs p) st.analyzed es a1
        st₂.analyzed hg (hmono.trans hsub)
      have hrec := visitChildren_revisit b cs (parents ++ [.unknownOp cs p])
        ⟨st.expressions ++ es, a1⟩ st' h st₂ hsub
      simp [visit, hidem, hrec]
  | .group c p, parents, st, st', h => by
    simp only [visit] at h
    intro st₂ hsub
    have hrec := visit_revisit b c (parents ++ [.group c p]) st st' h st₂ hsub
    simp [visit, hrec]
  | .range lo hi il ih p, parents, st, st', h => by
    cases hm : visit b lo (parents ++ [.range lo hi il ih p]) st with
    | error e =>
      simp only [visit, hm] at h
      exact Except.noConfusion h
    | ok stm =>
      simp only [visit, hm] at h
      intro st₂ hsub
      have hmono := visit_analyzed_mono b hi (parents ++ [.range lo hi il ih p])
        stm st' h
      have h1 := visit_revisit b lo (parents ++ [.range lo hi il ih p]) st stm hm
        st₂ (hmono.trans hsub)
      have h2 := visit_revisit b hi (parents ++ [.range lo hi il ih p]) stm st' h
        st₂ hsub
      simp [visit, h1, h2]
  | .fromItem c i p, parents, st, st', h => by
    simp only [visit] at h
    intro st₂ hsub
    have hrec := visit_revisit b c (parents ++ [.fromItem c i p]) st st' h st₂ hsub
    simp [visit, hrec]
  | .toItem c i p, parents, st, st', h => by
    simp only [visit] at h
    intro st₂ hsub
    have hrec := visit_revisit b c (parents ++ [.toItem c i p]) st st' h st₂ hsub
    simp [visit, hrec]

/-- List version of `visit_revisit`. -/
theorem visitChildren_revisit (b : ExpressionsBuilder) :
    ∀ (cs parents : List Item) (st st' : BState),
      visitChildren b cs parents st = .ok st' →
      ∀ st₂ : BState, st'.analyzed ⊆ st₂.analyzed →
      visitChildren b cs parents st₂ = .ok st₂
  | [], parents, st, st', h => by
    simp only [visitChildren, Except.ok.injEq] at h
    subst h
    intro st₂ hsub
    simp [visitChildren]
  | c :: rest, parents, st, st', h => by
    cases hv : visit b c parents st with
    | error e =>
      simp only [visitChildren, hv] at h
      exact Except.noConfusion h
    | ok s1 =>
      simp only [visitChildren, hv] at h
      intro st₂ hsub
      have hmono := visitChildren_analyzed_mono b rest parents s1 st' h
      have h1 := visit_revisit b c parents st s1 hv st₂ (hmono.trans hsub)
      have h2 := visitChildren_revisit b rest parents s1 st' h st₂ hsub
      simp [visitChildren, h1, h2]

end

/-- C2: within one compile call, a field-qualified node's or top-level bare
term's position key is recorded in the analyzed set by the time its
predicates are emitted; any later visit of a node whose position key is
already recorded emits nothing and leaves the state untouched; and
consequently re-walking an already-visited tree — which is exactly what the
visitor's generic re-traversal of children does — appends no predicate a
second time: the state after the re-walk is the state before it. -/
theorem c2_single_emission_per_call :
    (∀ (b : ExpressionsBuilder) (n : String) (c : Item) (pos : Option Int)
        (a : List Int),
      pyOr pos (-1) ∈ a → handelSearchField b n c pos a = .ok ([], a)) ∧
    (∀ (b : ExpressionsBuilder) (node : Item) (a : List Int),
      pyOr node.pos (-1) ∈ a → handleTopLevelTerm b node a = .ok ([], a)) ∧
    (∀ (b : ExpressionsBuilder) (n : String) (c : Item) (pos : Option Int)
        (a : List Int) (es : List Expr) (a' : List Int),
      handelSearchField b n c pos a = .ok (es, a') → pyOr pos (-1) ∈ a') ∧
    (∀ (b : ExpressionsBuilder) (node : Item) (a : List Int) (es : List Expr)
        (a' : List Int),
      handleTopLevelTerm b node a = .ok (es, a') → pyOr node.pos (-1) ∈ a') ∧
    (∀ (b : ExpressionsBuilder) (node : Item) (parents : List Item) (st st' : BState),
      visit b node parents st = .ok st' → visit b node parents st' = .ok st') :=
  ⟨handelSearchField_gated, handleTopLevelTerm_gated, handelSearchField_marks,
   handleTopLevelTerm_marks,
   fun b node parents st st' h =>
     visit_revisit b node parents st st' h st' (List.Subset.refl _)⟩

/-- Witness for C2: the gate suppresses a search field and a top-level term
whose key is recorded, and re-walking the fully visited `name:* age:*` tree
leaves the state unchanged. -/
theorem c2_single_emission_per_call_witness :
    handelSearchField heroBuilder "name" (.word "*" (some 5)) (some 3) [3] =
      .ok ([], [3]) ∧
    handleTopLevelTerm heroBuilder (.word "zz" (some 3)) [3] = .ok ([], [3]) ∧
    visit heroBuilder
      (.unknownOp [.searchField "name" (.word "*" (some 5)) (some 0),
                   .searchField "age" (.word "*" (some 12)) (some 7)] (some 0))
      [] ⟨[.isNotNull ⟨"Hero", "name"⟩, .isNotNull ⟨"Hero", "age"⟩], [7, -1]⟩ =
      .ok ⟨[.isNotNull ⟨"Hero", "name"⟩, .isNotNull ⟨"Hero", "age"⟩], [7, -1]⟩ :=
  ⟨c2_single_emission_per_call.1 heroBuilder "name" (.word "*" (some 5)) (some 3)
      [3] (by decide),
   c2_single_emission_per_call.2.1 heroBuilder (.word "zz" (some 3)) [3] (by decide),
   c2_single_emission_per_call.2.2.2.2 heroBuilder
      (.unknownOp [.searchField "name" (.word "*" (some 5)) (some 0),
                   .searchField "age" (.word "*" (some 12)) (some 7)] (some 0))
      [] initialBState
      ⟨[.isNotNull ⟨"Hero", "name"⟩, .isNotNull ⟨"Hero", "age"⟩], [7, -1]⟩ rfl⟩

end SqlmodelFilters
